import Mathlib

/-!
Shallow embedding of the Harfizer number-to-words library (TypeScript) in Lean 4.

Strings are modelled as `List Char` (`Str`).  JavaScript behaviours that the
source relies on are modelled explicitly:
  - array indexing out of bounds yields `undefined`; concatenating `undefined`
    into a string yields the text "undefined" (`jsEntry`);
  - reading a property of `undefined` throws a TypeError (`jsRow`);
  - `parseInt(s, 10)` parses an optional-sign digit prefix and yields NaN
    (modelled as `none`) when no digit is found (`jsParseInt`);
  - `x || d` on strings falls back on the empty string, `x ?? d` does not
    (`jsOrStr` vs `Option.getD`);
  - thrown `Error(msg)` values are modelled as `Except.error msg`.
The `parseFloat(raw) === 0` test of the Persian plugin is modelled exactly:
`parseFloat` returns the correctly rounded IEEE-754 double of the decimal
literal (round to nearest, ties to even), which is zero precisely when the
value is at most `2 ^ (-1075)`, half the smallest subnormal (the tie rounds to
the even significand, zero).  For a validated literal `i.f` with `k`
fractional digits this is the integer inequality
`natOfDigits (i ++ f) * 2 ^ 1075 ≤ 10 ^ k`; a dot-free literal takes the exact
`BigInt(raw) === 0n` comparison instead.
-/

deriving instance DecidableEq for Except

set_option maxRecDepth 100000

namespace Harfizer

abbrev Str := List Char

/-- Whitespace test used to model the JavaScript regex class `\s` and
`String.prototype.trim` on the ASCII inputs this development considers. -/
def isWS (c : Char) : Bool := c = ' ' || c = '\t' || c = '\n' || c = '\r'

/-- Characters removed by the source's `replace(/[,\s-]/g, "")`. -/
def isSepChar (c : Char) : Bool := c = ',' || isWS c || c = '-'

/-- Model of `replace(/[,\s-]/g, "")`. -/
def cleanSeps (s : Str) : Str := s.filter (fun c => !(isSepChar c))

/-- Model of `String.prototype.trim`. -/
def trimWS (s : Str) : Str :=
  ((s.dropWhile isWS).reverse.dropWhile isWS).reverse

def isDigitCh (c : Char) : Bool := '0' ≤ c && c ≤ '9'

def allDigits (s : Str) : Bool := s.all isDigitCh

def digitVal (c : Char) : Nat := c.toNat - 48

/-- Numeric value of a digit string (leading zeros allowed). -/
def natOfDigits (s : Str) : Nat := s.foldl (fun a c => a * 10 + digitVal c) 0

/-- Decimal rendering of an integer, as in the JavaScript number-to-string
conversion applied to parsed hour and minute values. -/
def intToStr (i : Int) : Str := (toString i).data

/-- Model of `String.prototype.split` with a one-character separator. -/
def splitOnChar (sep : Char) : Str → List Str
  | [] => [[]]
  | c :: rest =>
    let r := splitOnChar sep rest
    if c = sep then [] :: r
    else (c :: r.headD []) :: r.tail

/-- The validation regex `/^\d+(\.\d+)?$/` of the non-Persian plugins. -/
def isValidUnsignedNum (s : Str) : Bool :=
  match splitOnChar '.' s with
  | [a] => !a.isEmpty && allDigits a
  | [a, b] => !a.isEmpty && allDigits a && !b.isEmpty && allDigits b
  | _ => false

/-- The validation regex `/^-?\d+(\.\d+)?$/` of the Persian plugin: an
optional leading minus sign followed by the unsigned pattern. -/
def isValidSignedNum (s : Str) : Bool :=
  if s.headD ' ' = '-' then isValidUnsignedNum s.tail else isValidUnsignedNum s

/-- Model of `parseInt(s, 10)`: skip leading whitespace, read an optional
sign and then a digit prefix; yield `none` (NaN) when no digit follows. -/
def jsParseInt (s : Str) : Option Int :=
  let t := s.dropWhile isWS
  let (sign, u) : Int × Str :=
    match t with
    | '-' :: r => (-1, r)
    | '+' :: r => (1, r)
    | _ => (1, t)
  let ds := u.takeWhile isDigitCh
  if ds.isEmpty then none else some (sign * (natOfDigits ds : Int))

/-- JavaScript `lexicon[k]` where the result is immediately used as an array:
a missing row is `undefined` and any use of it throws a TypeError. -/
def jsRow (lex : List (List Str)) (k : Nat) : Except Str (List Str) :=
  match lex.get? k with
  | some r => Except.ok r
  | none => Except.error ("TypeError: Cannot read properties of undefined").data

/-- JavaScript `row[i]` used in string position: a missing entry is
`undefined`, which string concatenation renders as "undefined". -/
def jsEntry (row : List Str) (i : Nat) : Str :=
  (row.get? i).getD ("undefined").data

/-- JavaScript truthiness of a string variable that may also be undefined:
empty strings and `undefined` are falsy. -/
def jsTruthyStr (o : Option Str) : Bool :=
  match o with
  | some s => !s.isEmpty
  | none => false

/-- The string value of such a variable where it is used after the truthiness
test (only reached when defined). -/
def jsValStr (o : Option Str) : Str := o.getD []

/-- JavaScript `x || d` for a possibly-absent string option: the empty string
is falsy and also falls back to the default. -/
def jsOrStr (o : Option Str) (d : Str) : Str :=
  match o with
  | some s => if s.isEmpty then d else s
  | none => d

/-- The `ConversionOptions` record of `src/core.ts` (the `customTimePrefix`
field is unused by every `convertNumber` implementation and is read from the
instance configuration, not the options, by the Persian time formatter; it is
therefore not part of this record). -/
structure ConversionOptions where
  useNegativeWord : Option Bool := none
  customSeparator : Option Str := none
  customLexicon : Option (List (List Str)) := none
  customDecimalSuffixes : Option (List Str) := none
  customNegativeWord : Option Str := none
  customZeroWord : Option Str := none

/-- Options value for a call with no options argument. -/
def noOptions : ConversionOptions := {}

/-- Zero-padding of `splitIntoTriples` (Persian / legacy Harfizer): prepend
zeros until the length is a multiple of three. -/
def padTo3 (s : Str) : Str :=
  match s.length % 3 with
  | 1 => '0' :: '0' :: s
  | 2 => '0' :: s
  | _ => s

/-- Chunk a list into groups of three from the left (used on padded input). -/
def chunk3L : Str → List Str
  | a :: b :: c :: rest => [a, b, c] :: chunk3L rest
  | [] => []
  | rem => [rem]

/-- Chunk a list into groups of four from the left (used on reversed input). -/
def chunk4R : Str → List Str
  | a :: b :: c :: d :: rest => [a, b, c, d] :: chunk4R rest
  | [] => []
  | rem => [rem]

/-- The Persian / legacy `splitIntoTriples`: pad with leading zeros to a
multiple of three, then cut left to right. -/
def splitIntoTriples (s : Str) : List Str := chunk3L (padTo3 s)

/-- The English-style `splitIntoTriples`: cut groups of three from the right,
without padding (the leading group may be shorter). -/
def splitIntoTriplesR (s : Str) : List Str :=
  ((chunk3L s.reverse).map List.reverse).reverse

/-- The Chinese/Japanese `splitIntoQuadruples`: groups of four from the
right, without padding. -/
def splitIntoQuadruples (s : Str) : List Str :=
  ((chunk4R s.reverse).map List.reverse).reverse

def invalidFormatMsg : Str := ("Error: Invalid input format.").data

def outOfRangeMsg : Str := ("Error: Out of range.").data

def tooLargeMsg : Str := ("Error: The number is too large.").data

/-- Model of the `BigInt(rawInput)` constructor on the already-validated
integer literal: it succeeds exactly on non-empty digit strings. -/
def bigIntOfDigits (s : Str) : Option Nat :=
  if allDigits s && !s.isEmpty then some (natOfDigits s) else none

/-- Model of the Persian zero test: `parseFloat(rawInput) === 0` when the
literal contains a decimal point, `BigInt(rawInput) === 0n` otherwise.
`parseFloat` yields the correctly rounded double of the decimal value, which
is zero exactly when that value is at most `2 ^ (-1075)` (half the smallest
subnormal; the tie rounds to the even significand, zero).  On the validated
literal `i.f` with `k` fractional digits this is
`natOfDigits (i ++ f) * 2 ^ 1075 ≤ 10 ^ k`. -/
def literalIsZero (s : Str) : Bool :=
  if s.contains '.' then
    let parts := splitOnChar '.' s
    let ip := parts.headD []
    let fp := (parts.get? 1).getD []
    natOfDigits (ip ++ fp) * 2 ^ 1075 ≤ 10 ^ fp.length
  else natOfDigits s = 0

end Harfizer

namespace PersianLanguagePlugin

open Harfizer

def DEFAULT_SEPARATOR : Str := (" و ").data

def ZERO_WORD : Str := ("صفر").data

def NEGATIVE_WORD : Str := ("منفی ").data

/-- The five rows of the Persian default lexicon (units, 10..20, tens,
hundreds, scale words). -/
def DEFAULT_LEXICON : List (List Str) :=
  [(["", "یک", "دو", "سه", "چهار", "پنج", "شش", "هفت", "هشت", "نه"]).map String.data,
   (["ده", "یازده", "دوازده", "سیزده", "چهارده", "پانزده", "شانزده", "هفده",
     "هجده", "نوزده", "بیست"]).map String.data,
   (["", "", "بیست", "سی", "چهل", "پنجاه", "شصت", "هفتاد", "هشتاد",
     "نود"]).map String.data,
   (["", "یکصد", "دویست", "سیصد", "چهارصد", "پانصد", "ششصد", "هفتصد", "هشتصد",
     "نهصد"]).map String.data,
   (["", " هزار", " میلیون", " میلیارد", " بیلیون", " بیلیارد", " تریلیون",
     " تریلیارد", " کوآدریلیون", " کادریلیارد", " کوینتیلیون", " کوانتینیارد",
     " سکستیلیون", " سکستیلیارد", " سپتیلیون", " سپتیلیارد", " اکتیلیون",
     " اکتیلیارد", " نانیلیون", " نانیلیارد", " دسیلیون",
     " دسیلیارد"]).map String.data]

def DEFAULT_DECIMAL_SUFFIXES : List Str :=
  (["", "دهم", "صدم", "هزارم", "ده‌هزارم", "صد‌هزارم", "میلیونوم", "ده‌میلیونوم",
    "صدمیلیونوم", "میلیاردم", "ده‌میلیاردم", "صد‌‌میلیاردم"]).map String.data

/-- The body of `convertTripleToWords` on the parsed value, over an arbitrary
lexicon.  Row accesses mirror the JavaScript evaluation order and may throw a
TypeError when the supplied lexicon lacks a row. -/
def convertTripleToWordsCore (value : Nat) (lex : List (List Str)) :
    Except Str Str :=
  let isep := DEFAULT_SEPARATOR
  if value = 0 then Except.ok []
  else if value < 10 then do
    let r0 ← jsRow lex 0
    Except.ok (jsEntry r0 value)
  else if value ≤ 20 then do
    let r1 ← jsRow lex 1
    Except.ok (jsEntry r1 (value - 10))
  else if value < 100 then
    let unit := value % 10
    let tens := value / 10
    if unit > 0 then do
      let r2 ← jsRow lex 2
      let r0 ← jsRow lex 0
      Except.ok (jsEntry r2 tens ++ isep ++ jsEntry r0 unit)
    else do
      let r2 ← jsRow lex 2
      Except.ok (jsEntry r2 tens)
  else
    let unit := value % 10
    let hundreds := value / 100
    let tens := value % 100 / 10
    let remainder := tens * 10 + unit
    do
      let r3 ← jsRow lex 3
      let parts := [jsEntry r3 hundreds]
      if remainder = 0 then
        Except.ok (List.intercalate isep parts)
      else if remainder < 10 then do
        let r0 ← jsRow lex 0
        Except.ok (List.intercalate isep (parts ++ [jsEntry r0 remainder]))
      else if remainder ≤ 20 then do
        let r1 ← jsRow lex 1
        Except.ok (List.intercalate isep (parts ++ [jsEntry r1 (remainder - 10)]))
      else do
        let r2 ← jsRow lex 2
        if unit > 0 then do
          let r0 ← jsRow lex 0
          Except.ok (List.intercalate isep
            (parts ++ [jsEntry r2 tens] ++ [jsEntry r0 unit]))
        else
          Except.ok (List.intercalate isep (parts ++ [jsEntry r2 tens]))

/-- The same computation over the default lexicon, where no row is missing:
a total function returning the word string. -/
def convertTripleToWordsD (value : Nat) : Str :=
  let isep := DEFAULT_SEPARATOR
  let lex := DEFAULT_LEXICON
  if value = 0 then []
  else if value < 10 then jsEntry (lex.getD 0 []) value
  else if value ≤ 20 then jsEntry (lex.getD 1 []) (value - 10)
  else if value < 100 then
    let unit := value % 10
    let tens := value / 10
    if unit > 0 then
      jsEntry (lex.getD 2 []) tens ++ isep ++ jsEntry (lex.getD 0 []) unit
    else jsEntry (lex.getD 2 []) tens
  else
    let unit := value % 10
    let hundreds := value / 100
    let tens := value % 100 / 10
    let remainder := tens * 10 + unit
    let parts := [jsEntry (lex.getD 3 []) hundreds]
    if remainder = 0 then List.intercalate isep parts
    else if remainder < 10 then
      List.intercalate isep (parts ++ [jsEntry (lex.getD 0 []) remainder])
    else if remainder ≤ 20 then
      List.intercalate isep (parts ++ [jsEntry (lex.getD 1 []) (remainder - 10)])
    else if unit > 0 then
      List.intercalate isep
        (parts ++ [jsEntry (lex.getD 2 []) tens] ++ [jsEntry (lex.getD 0 []) unit])
    else
      List.intercalate isep (parts ++ [jsEntry (lex.getD 2 []) tens])

/-- The public `convertTripleToWords` with no lexicon argument, as a string
result (the default lexicon has every row, so no TypeError can occur; an
error is rendered as the empty string for totality). -/
def convertTripleToWords (value : Nat) : Str :=
  match convertTripleToWordsCore value DEFAULT_LEXICON with
  | Except.ok s => s
  | Except.error _ => []

/-- The group loop of `convertNumber`: convert each triple, skip empty
conversions, and append the scale entry `lexicon[4][remaining]` to the rest.
`rest.length` is the `triples.length - (i + 1)` of the source. -/
def wordPartsLoop (lex : List (List Str)) : List Str → Except Str (List Str)
  | [] => Except.ok []
  | t :: rest => do
    let conv ← convertTripleToWordsCore (natOfDigits t) lex
    if conv.isEmpty then wordPartsLoop lex rest
    else do
      let r4 ← jsRow lex 4
      let tail ← wordPartsLoop lex rest
      Except.ok ((conv ++ jsEntry r4 rest.length) :: tail)

/-- The group loop over the default lexicon, which never throws. -/
def wordPartsD : List Str → List Str
  | [] => []
  | t :: rest =>
    let conv := convertTripleToWordsD (natOfDigits t)
    if conv.isEmpty then wordPartsD rest
    else (conv ++ jsEntry (DEFAULT_LEXICON.getD 4 []) rest.length) :: wordPartsD rest

/-- Fractional-part helper `convertFractionalPart` (fuel bounds the
recursion through `convertNumber`; one level is always enough because the
recursive call receives a pure digit string). -/
def convertFractionalPartF
    (convertNumberRec : Str → ConversionOptions → Except Str Str)
    (fraction : Str) (decimalSuffixes : List Str) : Except Str Str :=
  let fraction := fraction.reverse.dropWhile (fun c => c = '0') |>.reverse
  if fraction.isEmpty then Except.ok []
  else
    let fraction := if fraction.length > 11 then fraction.take 11 else fraction
    do
      let inner ← convertNumberRec fraction noOptions
      Except.ok ((" ممیز ").data ++ inner ++ (" ").data ++
        jsEntry decimalSuffixes fraction.length)

/-- The Persian `convertNumber`, fuelled to account for the recursive call
made from `convertFractionalPart` (depth at most two). -/
def convertNumberF : Nat → Str → ConversionOptions → Except Str Str
  | 0, _, _ => Except.error ("fuel").data
  | fuel + 1, input, options =>
    let rawInput0 := trimWS input
    let stateA :=
      if rawInput0.headD ' ' = '-' && !rawInput0.isEmpty then
        (true, '-' :: cleanSeps rawInput0.tail)
      else (false, cleanSeps rawInput0)
    let isNeg := stateA.1
    let rawInput1 := stateA.2
    if !isValidSignedNum rawInput1 then Except.error invalidFormatMsg
    else
      let separator := (options.customSeparator).getD DEFAULT_SEPARATOR
      let lexicon := (options.customLexicon).getD DEFAULT_LEXICON
      let decimalSuffixes :=
        (options.customDecimalSuffixes).getD DEFAULT_DECIMAL_SUFFIXES
      let zeroWord := (options.customZeroWord).getD ZERO_WORD
      let negativeWord := (options.customNegativeWord).getD NEGATIVE_WORD
      let stateB :=
        if rawInput1.headD ' ' = '-' && !rawInput1.isEmpty then
          (true, rawInput1.tail)
        else (isNeg, rawInput1)
      let isNegative := stateB.1
      let rawInput := stateB.2
      let numericParse : Except Str Unit :=
        if rawInput.contains '.' then Except.ok ()
        else match bigIntOfDigits rawInput with
          | some _ => Except.ok ()
          | none => Except.error tooLargeMsg
      do
        let _ ← numericParse
        if literalIsZero rawInput then Except.ok zeroWord
        else
          let parts := splitOnChar '.' rawInput
          let inputStr := parts.headD []
          let fractionPart := (parts.get? 1).getD []
          if inputStr.length > 66 then Except.error outOfRangeMsg
          else do
            let wordParts ← wordPartsLoop lexicon (splitIntoTriples inputStr)
            let fractionWords ←
              if fractionPart.length > 0 then
                convertFractionalPartF (convertNumberF fuel) fractionPart
                  decimalSuffixes
              else Except.ok []
            let negFinal :=
              if isNegative && negativeWord.getLast? ≠ some ' ' then
                negativeWord ++ (" ").data
              else negativeWord
            Except.ok ((if isNegative then negFinal else []) ++
              List.intercalate separator wordParts ++ fractionWords)

/-- The Persian `convertNumber` (two fuel levels suffice: the only recursive
call converts a digit string, which performs no further recursion). -/
def convertNumber (input : Str) (options : ConversionOptions) :
    Except Str Str :=
  convertNumberF 2 input options

/-- The Persian `convertTimeToWords` (the instance configuration carries no
custom time word here, so the default one is used, as in a plugin constructed
without configuration). -/
def convertTimeToWords (timeStr : Str) : Except Str Str :=
  let parts := splitOnChar ':' timeStr
  if parts.length ≠ 2 then
    Except.error ("Invalid time format. Expected format 'HH:mm'.").data
  else
    let hourStr := parts.headD []
    let minuteStr := (parts.get? 1).getD []
    match jsParseInt hourStr, jsParseInt minuteStr with
    | none, _ =>
      Except.error ("Invalid time format. Hours and minutes should be numbers.").data
    | _, none =>
      Except.error ("Invalid time format. Hours and minutes should be numbers.").data
    | some hour, some minute =>
      if hour < 0 || hour > 23 then
        Except.error ("Invalid hour value. Hour should be between 0 and 23.").data
      else if minute < 0 || minute > 59 then
        Except.error ("Invalid minute value. Minute should be between 0 and 59.").data
      else do
        let hourWords ← convertNumber (intToStr hour) noOptions
        let minuteWords ← convertNumber (intToStr minute) noOptions
        if minute = 0 then Except.ok (("ساعت ").data ++ hourWords)
        else Except.ok (("ساعت ").data ++ hourWords ++ (" و ").data ++
          minuteWords ++ (" دقیقه").data)

end PersianLanguagePlugin

namespace EnglishLanguagePlugin

open Harfizer

def DEFAULT_SEPARATOR : Str := (" ").data

def ZERO_WORD : Str := ("zero").data

def NEGATIVE_WORD : Str := ("minus").data

def SCALE : List Str :=
  (["", "thousand", "million", "billion", "trillion", "quadrillion"]).map
    String.data

def UNITS : List Str :=
  (["", "one", "two", "three", "four", "five", "six", "seven", "eight",
    "nine"]).map String.data

def TEENS : List Str :=
  (["ten", "eleven", "twelve", "thirteen", "fourteen", "fifteen", "sixteen",
    "seventeen", "eighteen", "nineteen"]).map String.data

def TENS : List Str :=
  (["", "", "twenty", "thirty", "forty", "fifty", "sixty", "seventy",
    "eighty", "ninety"]).map String.data

/-- The English `convertBelowThousand`. -/
def convertBelowThousand (n : Nat) : Str :=
  let hundreds := n / 100
  let remainder := n % 100
  let result : Str :=
    if hundreds > 0 then jsEntry UNITS hundreds ++ (" hundred").data else []
  if remainder > 0 then
    let result := if !result.isEmpty then result ++ (" ").data else result
    if remainder < 10 then result ++ jsEntry UNITS remainder
    else if remainder < 20 then result ++ jsEntry TEENS (remainder - 10)
    else
      let tens := remainder / 10
      let unit := remainder % 10
      let result := result ++ jsEntry TENS tens
      if unit > 0 then result ++ ("-").data ++ jsEntry UNITS unit else result
  else result

/-- The English `convertTripleToWords` (lexicon and separator arguments are
ignored by the source). -/
def convertTripleToWords (value : Nat) : Str :=
  if value = 0 then [] else convertBelowThousand value

/-- The group loop of the English `convertNumber`: convert each triple, skip
empty conversions, and append the scale word when it is truthy.
`rest.length` is the `triples.length - i - 1` of the source. -/
def wordPartsE : List Str → List Str
  | [] => []
  | t :: rest =>
    let converted := convertTripleToWords (natOfDigits t)
    if converted.isEmpty then wordPartsE rest
    else
      let scaleWord : Option Str :=
        if rest.length > 0 then SCALE.get? rest.length else some []
      let token :=
        if jsTruthyStr scaleWord then
          converted ++ (" ").data ++ jsValStr scaleWord
        else converted
      token :: wordPartsE rest

def digitNamesE : List Str :=
  (["zero", "one", "two", "three", "four", "five", "six", "seven", "eight",
    "nine"]).map String.data

/-- The English `convertNumber`. -/
def convertNumber (input : Str) (options : ConversionOptions) :
    Except Str Str :=
  let zeroWord := jsOrStr options.customZeroWord ZERO_WORD
  let negativeWord := jsOrStr options.customNegativeWord NEGATIVE_WORD
  let separator := jsOrStr options.customSeparator DEFAULT_SEPARATOR
  let rawInput0 := trimWS input
  let stateA :=
    if rawInput0.headD ' ' = '-' && !rawInput0.isEmpty then
      (true, cleanSeps rawInput0.tail)
    else (false, cleanSeps rawInput0)
  let isNegative := stateA.1
  let rawInput := stateA.2
  if !isValidUnsignedNum rawInput then Except.error invalidFormatMsg
  else if rawInput = ("0").data || rawInput = ("0.0").data then
    Except.ok zeroWord
  else
    let parts := splitOnChar '.' rawInput
    let integerPart := parts.headD []
    let fractionalPart := (parts.get? 1).getD []
    if integerPart.length > 66 then Except.error outOfRangeMsg
    else
      let wordParts := wordPartsE (splitIntoTriplesR integerPart)
      let result := List.intercalate separator wordParts
      let result :=
        if fractionalPart.length > 0 then
          result ++ separator ++ ("point").data ++ separator ++
            List.intercalate separator
              (fractionalPart.map (fun d => jsEntry digitNamesE (digitVal d)))
        else result
      Except.ok (if isNegative then negativeWord ++ separator ++ result else result)

/-- The English `convertTimeToWords`. -/
def convertTimeToWords (timeStr : Str) : Except Str Str :=
  let parts := splitOnChar ':' timeStr
  if parts.length ≠ 2 then
    Except.error ("Invalid time format. Expected format 'HH:mm'.").data
  else
    let hourStr := parts.headD []
    let minuteStr := (parts.get? 1).getD []
    match jsParseInt hourStr, jsParseInt minuteStr with
    | none, _ =>
      Except.error ("Invalid time format. Hours and minutes should be numbers.").data
    | _, none =>
      Except.error ("Invalid time format. Hours and minutes should be numbers.").data
    | some hour, some minute =>
      if hour < 0 || hour > 23 then
        Except.error ("Invalid hour value. Hour should be between 0 and 23.").data
      else if minute < 0 || minute > 59 then
        Except.error ("Invalid minute value. Minute should be between 0 and 59.").data
      else do
        let hourWords ← convertNumber (intToStr hour) noOptions
        let minuteWords ← convertNumber (intToStr minute) noOptions
        if minute = 0 then
          Except.ok (("It is ").data ++ hourWords ++ (" o'clock").data)
        else
          Except.ok (("It is ").data ++ hourWords ++ (" o'clock and ").data ++
            minuteWords ++ (" minutes").data)

end EnglishLanguagePlugin

namespace RussianLanguagePlugin

open Harfizer

def DEFAULT_SEPARATOR : Str := (" ").data

def ZERO_WORD : Str := ("ноль").data

def NEGATIVE_WORD : Str := ("минус").data

def SCALE : List Str :=
  (["", "тысяча", "миллион", "миллиард", "триллион", "квадриллион"]).map
    String.data

def DIGITS : List Str :=
  (["", "один", "два", "три", "четыре", "пять", "шесть", "семь", "восемь",
    "девять"]).map String.data

def TEENS : List Str :=
  (["десять", "одиннадцать", "двенадцать", "тринадцать", "четырнадцать",
    "пятнадцать", "шестнадцать", "семнадцать", "восемнадцать",
    "девятнадцать"]).map String.data

def TENS : List Str :=
  (["", "", "двадцать", "тридцать", "сорок", "пятьдесят", "шестьдесят",
    "семьдесят", "восемьдесят", "девяносто"]).map String.data

def HUNDREDS : List Str :=
  (["", "сто", "двести", "триста", "четыреста", "пятьсот", "шестьсот",
    "семьсот", "восемьсот", "девятьсот"]).map String.data

/-- The Russian `convertBelowThousand`. -/
def convertBelowThousand (n : Nat) : Str :=
  let hundreds := n / 100
  let remainder := n % 100
  let result : Str := if hundreds > 0 then jsEntry HUNDREDS hundreds else []
  if remainder > 0 then
    if remainder < 10 then
      result ++ (if !result.isEmpty then (" ").data else []) ++
        jsEntry DIGITS remainder
    else if remainder < 20 then
      result ++ (if !result.isEmpty then (" ").data else []) ++
        jsEntry TEENS (remainder - 10)
    else
      let tens := remainder / 10
      let unit := remainder % 10
      let result := result ++ (if !result.isEmpty then (" ").data else []) ++
        jsEntry TENS tens
      if unit > 0 then result ++ (" ").data ++ jsEntry DIGITS unit else result
  else result

/-- The Russian `convertTripleToWords`. -/
def convertTripleToWords (value : Nat) : Str :=
  if value = 0 then [] else convertBelowThousand value

/-- The Russian group loop, identical in shape to the English one. -/
def wordPartsR : List Str → List Str
  | [] => []
  | t :: rest =>
    let converted := convertTripleToWords (natOfDigits t)
    if converted.isEmpty then wordPartsR rest
    else
      let scaleWord : Option Str :=
        if rest.length > 0 then SCALE.get? rest.length else some []
      let token :=
        if jsTruthyStr scaleWord then
          converted ++ (" ").data ++ jsValStr scaleWord
        else converted
      token :: wordPartsR rest

def digitNamesR : List Str :=
  (["ноль", "один", "два", "три", "четыре", "пять", "шесть", "семь", "восемь",
    "девять"]).map String.data

/-- The Russian `convertNumber`. -/
def convertNumber (input : Str) (options : ConversionOptions) :
    Except Str Str :=
  let zeroWord := jsOrStr options.customZeroWord ZERO_WORD
  let negativeWord := jsOrStr options.customNegativeWord NEGATIVE_WORD
  let separator := jsOrStr options.customSeparator DEFAULT_SEPARATOR
  let rawInput0 := trimWS input
  let stateA :=
    if rawInput0.headD ' ' = '-' && !rawInput0.isEmpty then
      (true, cleanSeps rawInput0.tail)
    else (false, cleanSeps rawInput0)
  let isNegative := stateA.1
  let rawInput := stateA.2
  if !isValidUnsignedNum rawInput then Except.error invalidFormatMsg
  else if rawInput = ("0").data || rawInput = ("0.0").data then
    Except.ok zeroWord
  else
    let parts := splitOnChar '.' rawInput
    let integerPart := parts.headD []
    let fractionalPart := (parts.get? 1).getD []
    if integerPart.length > 66 then Except.error outOfRangeMsg
    else
      let wordParts := wordPartsR (splitIntoTriplesR integerPart)
      let result := List.intercalate separator wordParts
      let result :=
        if fractionalPart.length > 0 then
          result ++ separator ++ ("запятая").data ++ separator ++
            List.intercalate separator
              (fractionalPart.map (fun d => jsEntry digitNamesR (digitVal d)))
        else result
      Except.ok (if isNegative then negativeWord ++ separator ++ result else result)

end RussianLanguagePlugin

namespace GermanLanguagePlugin

open Harfizer

def DEFAULT_SEPARATOR : Str := (" ").data

def ZERO_WORD : Str := ("null").data

def NEGATIVE_WORD : Str := ("minus").data

def SCALE : List Str :=
  (["", "tausend", "Million", "Milliarde", "Billion", "Billiarde"]).map
    String.data

def UNITS : List Str :=
  (["", "eins", "zwei", "drei", "vier", "fünf", "sechs", "sieben", "acht",
    "neun"]).map String.data

def TEENS : List Str :=
  (["zehn", "elf", "zwölf", "dreizehn", "vierzehn", "fünfzehn", "sechzehn",
    "siebzehn", "achtzehn", "neunzehn"]).map String.data

def TENS : List Str :=
  (["", "", "zwanzig", "dreißig", "vierzig", "fünfzig", "sechzig", "siebzig",
    "achtzig", "neunzig"]).map String.data

/-- The German `convertBelowThousand`. -/
def convertBelowThousand (n : Nat) : Str :=
  let hundreds := n / 100
  let remainder := n % 100
  let remainderText : Str :=
    if remainder > 0 then
      if remainder < 10 then jsEntry UNITS remainder
      else if remainder < 20 then jsEntry TEENS (remainder - 10)
      else
        let tens := remainder / 10
        let unit := remainder % 10
        if unit > 0 then
          jsEntry UNITS unit ++ ("und").data ++ jsEntry TENS tens
        else jsEntry TENS tens
    else []
  if hundreds > 0 then
    (if hundreds = 1 then ("einhundert").data
     else jsEntry UNITS hundreds ++ ("hundert").data) ++ remainderText
  else remainderText

/-- The German `convertTripleToWords`. -/
def convertTripleToWords (value : Nat) : Str :=
  if value = 0 then [] else convertBelowThousand value

/-- The German group loop, identical in shape to the English one. -/
def wordPartsG : List Str → List Str
  | [] => []
  | t :: rest =>
    let converted := convertTripleToWords (natOfDigits t)
    if converted.isEmpty then wordPartsG rest
    else
      let scaleWord : Option Str :=
        if rest.length > 0 then SCALE.get? rest.length else some []
      let token :=
        if jsTruthyStr scaleWord then
          converted ++ (" ").data ++ jsValStr scaleWord
        else converted
      token :: wordPartsG rest

def digitNamesG : List Str :=
  (["null", "eins", "zwei", "drei", "vier", "fünf", "sechs", "sieben", "acht",
    "neun"]).map String.data

/-- The German `convertNumber`. -/
def convertNumber (input : Str) (options : ConversionOptions) :
    Except Str Str :=
  let zeroWord := jsOrStr options.customZeroWord ZERO_WORD
  let negativeWord := jsOrStr options.customNegativeWord NEGATIVE_WORD
  let separator := jsOrStr options.customSeparator DEFAULT_SEPARATOR
  let rawInput0 := trimWS input
  let stateA :=
    if rawInput0.headD ' ' = '-' && !rawInput0.isEmpty then
      (true, cleanSeps rawInput0.tail)
    else (false, cleanSeps rawInput0)
  let isNegative := stateA.1
  let rawInput := stateA.2
  if !isValidUnsignedNum rawInput then Except.error invalidFormatMsg
  else if rawInput = ("0").data || rawInput = ("0.0").data then
    Except.ok zeroWord
  else
    let parts := splitOnChar '.' rawInput
    let integerPart := parts.headD []
    let fractionalPart := (parts.get? 1).getD []
    if integerPart.length > 66 then Except.error outOfRangeMsg
    else
      let wordParts := wordPartsG (splitIntoTriplesR integerPart)
      let result := List.intercalate separator wordParts
      let result :=
        if fractionalPart.length > 0 then
          result ++ separator ++ ("Komma").data ++ separator ++
            List.intercalate separator
              (fractionalPart.map (fun d => jsEntry digitNamesG (digitVal d)))
        else result
      Except.ok (if isNegative then negativeWord ++ separator ++ result else result)

end GermanLanguagePlugin

namespace SpanishLanguagePlugin

open Harfizer

def DEFAULT_SEPARATOR : Str := (" ").data

def ZERO_WORD : Str := ("cero").data

def NEGATIVE_WORD : Str := ("menos").data

def SCALE : List Str :=
  (["", "mil", "millón", "mil millones", "billón", "billones"]).map
    String.data

def UNITS : List Str :=
  (["", "uno", "dos", "tres", "cuatro", "cinco", "seis", "siete", "ocho",
    "nueve"]).map String.data

def TEENS : List Str :=
  (["diez", "once", "doce", "trece", "catorce", "quince", "dieciséis",
    "diecisiete", "dieciocho", "diecinueve"]).map String.data

def TENS : List Str :=
  (["", "", "veinte", "treinta", "cuarenta", "cincuenta", "sesenta",
    "setenta", "ochenta", "noventa"]).map String.data

def HUNDREDS : List Str :=
  (["", "cien", "doscientos", "trescientos", "cuatrocientos", "quinientos",
    "seiscientos", "setecientos", "ochocientos", "novecientos"]).map
    String.data

def veintiForms : List Str :=
  (["veinte", "veintiuno", "veintidós", "veintitrés", "veinticuatro",
    "veinticinco", "veintiséis", "veintisiete", "veintiocho",
    "veintinueve"]).map String.data

/-- The Spanish `convertBelowThousand`. -/
def convertBelowThousand (n : Nat) : Str :=
  let hundreds := n / 100
  let remainder := n % 100
  let remainderText : Str :=
    if remainder > 0 then
      if remainder < 10 then jsEntry UNITS remainder
      else if remainder < 20 then jsEntry TEENS (remainder - 10)
      else
        let tens := remainder / 10
        let unit := remainder % 10
        if tens = 2 && unit > 0 then jsEntry veintiForms unit
        else
          jsEntry TENS tens ++
            (if unit > 0 then (" y ").data ++ jsEntry UNITS unit else [])
    else []
  if hundreds > 0 then
    (if hundreds = 1 then
        (if remainder = 0 then ("cien").data else ("ciento").data)
     else jsEntry HUNDREDS hundreds) ++
      (if !remainderText.isEmpty then (" ").data ++ remainderText else [])
  else remainderText

/-- The Spanish `convertTripleToWords`. -/
def convertTripleToWords (value : Nat) : Str :=
  if value = 0 then [] else convertBelowThousand value

/-- The Spanish group loop: like the English one, except that the scale word
"millón" is pluralized when the group value exceeds one. -/
def wordPartsS : List Str → List Str
  | [] => []
  | t :: rest =>
    let converted := convertTripleToWords (natOfDigits t)
    if converted.isEmpty then wordPartsS rest
    else
      let scaleWord : Option Str :=
        if rest.length > 0 then
          let w := SCALE.get? rest.length
          if w = some (("millón").data) && natOfDigits t > 1 then
            some (("millones").data)
          else w
        else some []
      let token :=
        if jsTruthyStr scaleWord then
          converted ++ (" ").data ++ jsValStr scaleWord
        else converted
      token :: wordPartsS rest

def digitNamesS : List Str :=
  (["cero", "uno", "dos", "tres", "cuatro", "cinco", "seis", "siete", "ocho",
    "nueve"]).map String.data

/-- The Spanish `convertNumber`. -/
def convertNumber (input : Str) (options : ConversionOptions) :
    Except Str Str :=
  let zeroWord := jsOrStr options.customZeroWord ZERO_WORD
  let negativeWord := jsOrStr options.customNegativeWord NEGATIVE_WORD
  let separator := jsOrStr options.customSeparator DEFAULT_SEPARATOR
  let rawInput0 := trimWS input
  let stateA :=
    if rawInput0.headD ' ' = '-' && !rawInput0.isEmpty then
      (true, cleanSeps rawInput0.tail)
    else (false, cleanSeps rawInput0)
  let isNegative := stateA.1
  let rawInput := stateA.2
  if !isValidUnsignedNum rawInput then Except.error invalidFormatMsg
  else if rawInput = ("0").data || rawInput = ("0.0").data then
    Except.ok zeroWord
  else
    let parts := splitOnChar '.' rawInput
    let integerPart := parts.headD []
    let fractionalPart := (parts.get? 1).getD []
    if integerPart.length > 66 then Except.error outOfRangeMsg
    else
      let wordParts := wordPartsS (splitIntoTriplesR integerPart)
      let result := List.intercalate separator wordParts
      let result :=
        if fractionalPart.length > 0 then
          result ++ separator ++ ("punto").data ++ separator ++
            List.intercalate separator
              (fractionalPart.map (fun d => jsEntry digitNamesS (digitVal d)))
        else result
      Except.ok
        (if isNegative then
          negativeWord ++ (if !result.isEmpty then separator ++ result else [])
        else result)

end SpanishLanguagePlugin

namespace FrenchLanguagePlugin

open Harfizer

def DEFAULT_SEPARATOR : Str := (" ").data

def ZERO_WORD : Str := ("zéro").data

def NEGATIVE_WORD : Str := ("moins").data

def SCALE : List Str :=
  (["", "mille", "million", "milliard", "billion", "billiard", "trillion",
    "trilliard", "quadrillion", "quadrilliard", "quintillion", "quintilliard",
    "sextillion", "sextilliard", "septillion", "septilliard", "octillion",
    "octilliard", "nonillion", "nonilliard", "décillion", "décilliard"]).map
    String.data

def unitsF : List Str :=
  (["zéro", "un", "deux", "trois", "quatre", "cinq", "six", "sept", "huit",
    "neuf"]).map String.data

def teensF : List Str :=
  (["dix", "onze", "douze", "treize", "quatorze", "quinze", "seize"]).map
    String.data

def tensArrayF : List Str :=
  (["", "", "vingt", "trente", "quarante", "cinquante", "soixante"]).map
    String.data

/-- The French `convertBelowHundred`, fuelled for its self-recursion (the
70-99 cases re-enter with a strictly smaller argument; depth is at most
two). -/
def convertBelowHundredF : Nat → Nat → Str
  | 0, _ => []
  | fuel + 1, n =>
    if n < 10 then jsEntry unitsF n
    else if n < 17 then jsEntry teensF (n - 10)
    else if n < 20 then ("dix-").data ++ jsEntry unitsF (n - 10)
    else if n < 70 then
      let tens := n / 10
      let unit := n % 10
      if unit = 0 then jsEntry tensArrayF tens
      else if unit = 1 then jsEntry tensArrayF tens ++ (" et un").data
      else jsEntry tensArrayF tens ++ ("-").data ++ jsEntry unitsF unit
    else if n < 80 then
      let remainder := n - 60
      if remainder = 1 then ("soixante et onze").data
      else ("soixante-").data ++ convertBelowHundredF fuel (10 + remainder)
    else if n < 100 then
      if n = 80 then ("quatre-vingts").data
      else ("quatre-vingt-").data ++ convertBelowHundredF fuel (n - 80)
    else []

def convertBelowHundred (n : Nat) : Str := convertBelowHundredF 3 n

/-- The French `convertBelowThousand`. -/
def convertBelowThousand (n : Nat) : Str :=
  let hundreds := n / 100
  let remainder := n % 100
  let words : Str :=
    if hundreds > 0 then
      (if hundreds = 1 then ("cent").data
       else convertBelowHundred hundreds ++ (" cent").data) ++
        (if remainder = 0 && hundreds > 1 then ("s").data else [])
    else []
  if remainder > 0 then
    (if !words.isEmpty then words ++ (" ").data else words) ++
      convertBelowHundred remainder
  else words

/-- The French `convertTripleToWords`. -/
def convertTripleToWords (value : Nat) : Str :=
  if value = 0 then [] else convertBelowThousand value

/-- The French group loop: the group text and its scale word are pushed as
separate tokens; "mille" absorbs a leading one; scale words of rank two and
above are pluralized for group values above one. -/
def tokensF : List Str → List Str
  | [] => []
  | t :: rest =>
    let groupNum := natOfDigits t
    if groupNum = 0 then tokensF rest
    else
      let scaleIndex := rest.length
      let scaleWord := jsEntry SCALE scaleIndex
      if scaleIndex = 1 && groupNum = 1 then scaleWord :: tokensF rest
      else
        let headTokens :=
          if scaleIndex > 0 then
            let finalScale :=
              if scaleIndex ≥ 2 then
                if groupNum > 1 then scaleWord ++ ("s").data else scaleWord
              else scaleWord
            [convertBelowThousand groupNum, finalScale]
          else [convertBelowThousand groupNum]
        headTokens ++ tokensF rest

def digitNamesFr : List Str :=
  (["zéro", "un", "deux", "trois", "quatre", "cinq", "six", "sept", "huit",
    "neuf"]).map String.data

/-- The French `convertNumber`. -/
def convertNumber (input : Str) (options : ConversionOptions) :
    Except Str Str :=
  let zeroWord := jsOrStr options.customZeroWord ZERO_WORD
  let negativeWord := jsOrStr options.customNegativeWord NEGATIVE_WORD
  let separator := jsOrStr options.customSeparator DEFAULT_SEPARATOR
  let rawInput0 := trimWS input
  let stateA :=
    if rawInput0.headD ' ' = '-' && !rawInput0.isEmpty then
      (true, cleanSeps rawInput0.tail)
    else (false, cleanSeps rawInput0)
  let isNegative := stateA.1
  let rawInput := stateA.2
  if !isValidUnsignedNum rawInput then Except.error invalidFormatMsg
  else if rawInput = ("0").data || rawInput = ("0.0").data then
    Except.ok zeroWord
  else
    let parts := splitOnChar '.' rawInput
    let integerPart := parts.headD []
    let fractionalPart := (parts.get? 1).getD []
    if integerPart.length > 66 then Except.error outOfRangeMsg
    else
      let tokens := tokensF (splitIntoTriplesR integerPart)
      let result := List.intercalate separator tokens
      let result :=
        if fractionalPart.length > 0 then
          result ++ separator ++ ("virgule").data ++ separator ++
            List.intercalate separator
              (fractionalPart.map (fun d => jsEntry digitNamesFr (digitVal d)))
        else result
      Except.ok (if isNegative then negativeWord ++ separator ++ result else result)

end FrenchLanguagePlugin

namespace ChineseLanguagePlugin

open Harfizer

def DEFAULT_SEPARATOR : Str := (" ").data

def ZERO_WORD : Str := ("零").data

def NEGATIVE_WORD : Str := ("负").data

def SCALE : List Str := (["", "万", "亿", "兆"]).map String.data

def digitsC : List Str :=
  (["零", "一", "二", "三", "四", "五", "六", "七", "八", "九"]).map String.data

/-- The Chinese `convertBelowTenThousand`, fuelled for its self-recursion
(depth at most three). -/
def convertBelowTenThousandF : Nat → Nat → Str
  | 0, _ => []
  | fuel + 1, n =>
    if n < 10 then jsEntry digitsC n
    else if n < 100 then
      let tens := n / 10
      let unit := n % 10
      if n = 10 then ("十").data
      else
        let result :=
          if tens = 1 then ("十").data else jsEntry digitsC tens ++ ("十").data
        if unit ≠ 0 then result ++ jsEntry digitsC unit else result
    else if n < 1000 then
      let hundreds := n / 100
      let remainder := n % 100
      let result := jsEntry digitsC hundreds ++ ("百").data
      if remainder = 0 then result
      else if remainder < 10 then
        result ++ ("零").data ++ convertBelowTenThousandF fuel remainder
      else if remainder / 10 = 0 then
        result ++ ("零").data ++ convertBelowTenThousandF fuel remainder
      else result ++ convertBelowTenThousandF fuel remainder
    else if n < 10000 then
      let thousands := n / 1000
      let remainder := n % 1000
      let result :=
        if thousands = 1 then ("千").data
        else jsEntry digitsC thousands ++ ("千").data
      if remainder = 0 then result
      else if remainder < 100 then
        result ++ ("零").data ++ convertBelowTenThousandF fuel remainder
      else result ++ convertBelowTenThousandF fuel remainder
    else []

def convertBelowTenThousand (n : Nat) : Str := convertBelowTenThousandF 4 n

/-- The Chinese `convertTripleToWords` (a group of up to four digits). -/
def convertTripleToWords (value : Nat) : Str :=
  if value = 0 then [] else convertBelowTenThousand value

/-- The Chinese group loop: the scale suffix `scale[scaleIndex]` is appended
unconditionally, so an out-of-range index concatenates the JavaScript text
"undefined" into the token. -/
def tokensC : List Str → List Str
  | [] => []
  | t :: rest =>
    let groupNum := natOfDigits t
    if groupNum = 0 then tokensC rest
    else
      let text := convertBelowTenThousand groupNum
      let token :=
        if rest.length > 0 then text ++ jsEntry SCALE rest.length else text
      token :: tokensC rest

/-- The Chinese `convertNumber`. -/
def convertNumber (input : Str) (options : ConversionOptions) :
    Except Str Str :=
  let zeroWord := jsOrStr options.customZeroWord ZERO_WORD
  let negativeWord := jsOrStr options.customNegativeWord NEGATIVE_WORD
  let separator := jsOrStr options.customSeparator DEFAULT_SEPARATOR
  let rawInput0 := trimWS input
  let stateA :=
    if rawInput0.headD ' ' = '-' && !rawInput0.isEmpty then
      (true, cleanSeps rawInput0.tail)
    else (false, cleanSeps rawInput0)
  let isNegative := stateA.1
  let rawInput := stateA.2
  if !isValidUnsignedNum rawInput then Except.error invalidFormatMsg
  else if rawInput = ("0").data || rawInput = ("0.0").data then
    Except.ok zeroWord
  else
    let parts := splitOnChar '.' rawInput
    let integerPart := parts.headD []
    let fractionalPart := (parts.get? 1).getD []
    if integerPart.length > 66 then Except.error outOfRangeMsg
    else
      let tokens := tokensC (splitIntoQuadruples integerPart)
      let result := List.intercalate separator tokens
      let result :=
        if fractionalPart.length > 0 then
          result ++ separator ++ ("点").data ++ separator ++
            List.intercalate separator
              (fractionalPart.map (fun d => jsEntry digitsC (digitVal d)))
        else result
      Except.ok (if isNegative then negativeWord ++ separator ++ result else result)

end ChineseLanguagePlugin

namespace JapaneseLanguagePlugin

open Harfizer

def DEFAULT_SEPARATOR : Str := (" ").data

def ZERO_WORD : Str := ("零").data

def NEGATIVE_WORD : Str := ("マイナス").data

def SCALE : List Str := (["", "万", "億", "兆", "京", "垓"]).map String.data

def digitsJ : List Str :=
  (["零", "一", "二", "三", "四", "五", "六", "七", "八", "九"]).map String.data

/-- The Japanese `convertBelowTenThousand`, fuelled for its self-recursion
(depth at most three). -/
def convertBelowTenThousandF : Nat → Nat → Str
  | 0, _ => []
  | fuel + 1, n =>
    if n < 10 then jsEntry digitsJ n
    else if n < 100 then
      let tens := n / 10
      let unit := n % 10
      let result :=
        if tens = 1 then ("十").data else jsEntry digitsJ tens ++ ("十").data
      if unit ≠ 0 then result ++ jsEntry digitsJ unit else result
    else if n < 1000 then
      let hundreds := n / 100
      let remainder := n % 100
      let result :=
        if hundreds = 1 then ("百").data
        else jsEntry digitsJ hundreds ++ ("百").data
      if remainder ≠ 0 then result ++ convertBelowTenThousandF fuel remainder
      else result
    else if n < 10000 then
      let thousands := n / 1000
      let remainder := n % 1000
      let result :=
        if thousands = 1 then ("千").data
        else jsEntry digitsJ thousands ++ ("千").data
      if remainder ≠ 0 then result ++ convertBelowTenThousandF fuel remainder
      else result
    else []

def convertBelowTenThousand (n : Nat) : Str := convertBelowTenThousandF 4 n

/-- The Japanese `convertTripleToWords` (a group of up to four digits). -/
def convertTripleToWords (value : Nat) : Str :=
  if value = 0 then [] else convertBelowTenThousand value

/-- The Japanese group loop, identical in shape to the Chinese one (the scale
suffix is appended unconditionally). -/
def tokensJ : List Str → List Str
  | [] => []
  | t :: rest =>
    let groupNum := natOfDigits t
    if groupNum = 0 then tokensJ rest
    else
      let text := convertBelowTenThousand groupNum
      let token :=
        if rest.length > 0 then text ++ jsEntry SCALE rest.length else text
      token :: tokensJ rest

/-- The Japanese `convertNumber`. -/
def convertNumber (input : Str) (options : ConversionOptions) :
    Except Str Str :=
  let zeroWord := jsOrStr options.customZeroWord ZERO_WORD
  let negativeWord := jsOrStr options.customNegativeWord NEGATIVE_WORD
  let separator := jsOrStr options.customSeparator DEFAULT_SEPARATOR
  let rawInput0 := trimWS input
  let stateA :=
    if rawInput0.headD ' ' = '-' && !rawInput0.isEmpty then
      (true, cleanSeps rawInput0.tail)
    else (false, cleanSeps rawInput0)
  let isNegative := stateA.1
  let rawInput := stateA.2
  if !isValidUnsignedNum rawInput then Except.error invalidFormatMsg
  else if rawInput = ("0").data || rawInput = ("0.0").data then
    Except.ok zeroWord
  else
    let parts := splitOnChar '.' rawInput
    let integerPart := parts.headD []
    let fractionalPart := (parts.get? 1).getD []
    if integerPart.length > 66 then Except.error outOfRangeMsg
    else
      let tokens := tokensJ (splitIntoQuadruples integerPart)
      let result := List.intercalate separator tokens
      let result :=
        if fractionalPart.length > 0 then
          result ++ separator ++ ("点").data ++ separator ++
            List.intercalate separator
              (fractionalPart.map (fun d => jsEntry digitsJ (digitVal d)))
        else result
      Except.ok (if isNegative then negativeWord ++ separator ++ result else result)

end JapaneseLanguagePlugin

namespace HarfizerConverter

open Harfizer

/-- The legacy `HarfizerConverter.convert` shares the Persian plugin's
lexicon, words, and algorithm; the only difference relevant here is that its
fractional helper forwards the resolved decimal suffixes to the recursive
call.  Its zero/negative/separator resolution uses `??` exactly as the
Persian plugin does, and like every other converter it never reads the
`useNegativeWord` option.  The conversion pipeline is therefore the Persian
one. -/
def convert (input : Str) (options : ConversionOptions) : Except Str Str :=
  PersianLanguagePlugin.convertNumberF 2 input options

end HarfizerConverter

namespace Harfizer

theorem isSepChar_eq_false {c : Char} (h : isDigitCh c = true) :
    isSepChar c = false := by
  simp only [isSepChar, isWS, Bool.or_eq_false_iff, decide_eq_false_iff_not]
  repeat' apply And.intro
  all_goals intro hc
  all_goals subst hc
  all_goals revert h
  all_goals decide

theorem isWS_eq_false {c : Char} (h : isDigitCh c = true) : isWS c = false := by
  have := isSepChar_eq_false h
  simp only [isSepChar, Bool.or_eq_false_iff] at this
  exact this.1.2

theorem dot_isSepChar : isSepChar '.' = false := by decide

theorem dot_not_digit : isDigitCh '.' = false := by decide

theorem cleanSeps_eq_self {s : Str} (h : ∀ c ∈ s, isSepChar c = false) :
    cleanSeps s = s := by
  induction s with
  | nil => rfl
  | cons c t ih =>
    have hc := h c (List.mem_cons_self c t)
    have ht := ih (fun d hd => h d (List.mem_cons_of_mem c hd))
    show List.filter _ (c :: t) = c :: t
    rw [List.filter_cons]
    simp only [hc, Bool.not_false, if_true]
    exact congrArg (c :: ·) ht

theorem dropWhile_eq_self {p : Char → Bool} {s : Str}
    (h : ∀ c ∈ s, p c = false) : s.dropWhile p = s := by
  cases s with
  | nil => rfl
  | cons c t => simp [List.dropWhile, h c (List.mem_cons_self c t)]

theorem trimWS_eq_self {s : Str} (h : ∀ c ∈ s, isWS c = false) :
    trimWS s = s := by
  unfold trimWS
  rw [dropWhile_eq_self h]
  rw [dropWhile_eq_self (fun c hc => h c (List.mem_reverse.mp hc))]
  exact List.reverse_reverse s

theorem splitOnChar_of_not_mem {sep : Char} {s : Str}
    (h : ∀ c ∈ s, c ≠ sep) : splitOnChar sep s = [s] := by
  induction s with
  | nil => rfl
  | cons c t ih =>
    have ht := ih (fun d hd => h d (List.mem_cons_of_mem c hd))
    simp only [splitOnChar, ht, if_neg (h c (List.mem_cons_self c t))]
    rfl

theorem splitOnChar_append {sep : Char} {a b : Str}
    (h : ∀ c ∈ a, c ≠ sep) :
    splitOnChar sep (a ++ sep :: b) = a :: splitOnChar sep b := by
  induction a with
  | nil => simp [splitOnChar]
  | cons c t ih =>
    have ht := ih (fun d hd => h d (List.mem_cons_of_mem c hd))
    simp only [List.cons_append, splitOnChar, List.append_eq, ht,
      if_neg (h c (List.mem_cons_self c t))]
    rfl

theorem digit_ne_dot {c : Char} (h : isDigitCh c = true) : c ≠ '.' := by
  intro hc; subst hc; revert h; decide

theorem isValidUnsignedNum_digits {s : Str} (hne : s ≠ [])
    (hd : allDigits s = true) : isValidUnsignedNum s = true := by
  unfold isValidUnsignedNum
  rw [splitOnChar_of_not_mem (fun c hc => ?_)]
  · simp [hne, hd]
  · exact digit_ne_dot (by
      simp only [allDigits, List.all_eq_true] at hd
      exact hd c hc)

theorem isValidUnsignedNum_frac {a b : Str} (hane : a ≠ []) (hbne : b ≠ [])
    (ha : allDigits a = true) (hb : allDigits b = true) :
    isValidUnsignedNum (a ++ '.' :: b) = true := by
  unfold isValidUnsignedNum
  simp only [allDigits, List.all_eq_true] at ha hb
  rw [splitOnChar_append (fun c hc => digit_ne_dot (ha c hc)),
    splitOnChar_of_not_mem (fun c hc => digit_ne_dot (hb c hc))]
  simp [hane, hbne, allDigits, List.all_eq_true]
  exact ⟨ha, hb⟩

theorem digit_toNat_bounds {c : Char} (h : isDigitCh c = true) :
    48 ≤ c.toNat ∧ c.toNat ≤ 57 := by
  simp only [isDigitCh, Bool.and_eq_true, decide_eq_true_eq] at h
  exact ⟨h.1, h.2⟩

theorem digitVal_le_nine {c : Char} (h : isDigitCh c = true) :
    digitVal c ≤ 9 := by
  have := digit_toNat_bounds h
  unfold digitVal
  omega

theorem digitVal_eq_zero_iff {c : Char} (h : isDigitCh c = true) :
    digitVal c = 0 ↔ c = '0' := by
  have hb := digit_toNat_bounds h
  constructor
  · intro h0
    have : c.toNat = 48 := by unfold digitVal at h0; omega
    apply Char.ext
    apply UInt32.ext
    simpa using this
  · intro h0; subst h0; rfl

theorem foldl_digits_eq (s : Str) : ∀ a : Nat,
    s.foldl (fun a c => a * 10 + digitVal c) a =
      a * 10 ^ s.length + natOfDigits s := by
  induction s with
  | nil => intro a; simp [natOfDigits]
  | cons c t ih =>
    intro a
    show t.foldl _ (a * 10 + digitVal c) = _
    rw [ih (a * 10 + digitVal c)]
    have hnat : natOfDigits (c :: t) = digitVal c * 10 ^ t.length + natOfDigits t := by
      show t.foldl _ (0 * 10 + digitVal c) = _
      rw [ih (0 * 10 + digitVal c)]
      ring
    rw [hnat, List.length_cons, pow_succ]
    ring

theorem natOfDigits_cons (c : Char) (t : Str) :
    natOfDigits (c :: t) = digitVal c * 10 ^ t.length + natOfDigits t := by
  show t.foldl _ (0 * 10 + digitVal c) = _
  rw [foldl_digits_eq t (0 * 10 + digitVal c)]
  ring

theorem natOfDigits_append (a b : Str) :
    natOfDigits (a ++ b) = natOfDigits a * 10 ^ b.length + natOfDigits b := by
  induction a with
  | nil => simp [natOfDigits]
  | cons c t ih =>
    rw [List.cons_append, natOfDigits_cons, natOfDigits_cons, ih,
      List.length_append, pow_add]
    ring

theorem natOfDigits_lt {s : Str} (hd : allDigits s = true) :
    natOfDigits s < 10 ^ s.length := by
  induction s with
  | nil => simp [natOfDigits]
  | cons c t ih =>
    simp only [allDigits, List.all_cons, Bool.and_eq_true] at hd
    have h1 := digitVal_le_nine hd.1
    have h2 := ih hd.2
    rw [natOfDigits_cons, List.length_cons, pow_succ]
    nlinarith [pow_pos (show 0 < 10 by norm_num) t.length]

theorem natOfDigits_eq_zero_iff {s : Str} (hd : allDigits s = true) :
    natOfDigits s = 0 ↔ ∀ c ∈ s, c = '0' := by
  induction s with
  | nil => simp [natOfDigits]
  | cons c t ih =>
    simp only [allDigits, List.all_cons, Bool.and_eq_true] at hd
    rw [natOfDigits_cons]
    have hpow : 0 < 10 ^ t.length := pow_pos (by norm_num) t.length
    constructor
    · intro h0
      have hdz : digitVal c = 0 := by nlinarith
      have htz : natOfDigits t = 0 := by omega
      intro d hdmem
      rcases List.mem_cons.mp hdmem with h | h
      · subst h; exact (digitVal_eq_zero_iff hd.1).mp hdz
      · exact ((ih hd.2).mp htz) d h
    · intro hall
      have hc : c = '0' := hall c (List.mem_cons_self c t)
      have hdz : digitVal c = 0 := (digitVal_eq_zero_iff hd.1).mpr hc
      have htz : natOfDigits t = 0 :=
        (ih hd.2).mpr (fun d hdmem => hall d (List.mem_cons_of_mem c hdmem))
      rw [hdz, htz]; ring

theorem natOfDigits_zeros_prepend (s : Str) :
    natOfDigits ('0' :: s) = natOfDigits s := by
  rw [natOfDigits_cons]
  have : digitVal '0' = 0 := by decide
  rw [this]; ring

theorem natOfDigits_padTo3 (s : Str) :
    natOfDigits (padTo3 s) = natOfDigits s := by
  unfold padTo3
  rcases h : s.length % 3 with _ | _ | _ | k
  · rfl
  · rw [natOfDigits_zeros_prepend, natOfDigits_zeros_prepend]
  · rw [natOfDigits_zeros_prepend]
  · rfl

theorem allDigits_padTo3 {s : Str} (h : allDigits s = true) :
    allDigits (padTo3 s) = true := by
  unfold padTo3
  rcases hm : s.length % 3 with _ | _ | _ | k <;>
    simp_all [allDigits, isDigitCh]

theorem padTo3_length (s : Str) : (padTo3 s).length % 3 = 0 := by
  unfold padTo3
  rcases hm : s.length % 3 with _ | _ | _ | k <;> simp_all <;> omega

theorem padTo3_length_le {s : Str} (h : s.length ≤ 66) :
    (padTo3 s).length ≤ 66 := by
  unfold padTo3
  rcases hm : s.length % 3 with _ | _ | _ | k <;> simp_all <;> omega

theorem chunk3L_join (s : Str) : (chunk3L s).join = s := by
  induction s using chunk3L.induct with
  | case1 a b c rest ih => rw [chunk3L]; simp [ih]
  | case2 => rfl
  | case3 rem h1 h2 => rw [chunk3L.eq_def]; cases rem with
    | nil => simp at h2
    | cons x xs => cases xs with
      | nil => simp
      | cons y ys => cases ys with
        | nil => simp
        | cons z zs => exact absurd rfl (h1 x y z zs)

theorem chunk3L_length (s : Str) : (chunk3L s).length = (s.length + 2) / 3 := by
  induction s using chunk3L.induct with
  | case1 a b c rest ih => rw [chunk3L]; simp [ih]; omega
  | case2 => rfl
  | case3 rem h1 h2 => rw [chunk3L.eq_def]; cases rem with
    | nil => simp at h2
    | cons x xs => cases xs with
      | nil => simp
      | cons y ys => cases ys with
        | nil => simp
        | cons z zs => exact absurd rfl (h1 x y z zs)

theorem chunk4R_join (s : Str) : (chunk4R s).join = s := by
  induction s using chunk4R.induct with
  | case1 a b c d rest ih => rw [chunk4R]; simp [ih]
  | case2 => rfl
  | case3 rem h1 h2 => rw [chunk4R.eq_def]; cases rem with
    | nil => simp at h2
    | cons x xs => cases xs with
      | nil => simp
      | cons y ys => cases ys with
        | nil => simp
        | cons z zs => cases zs with
          | nil => simp
          | cons w ws => exact absurd rfl (h1 x y z w ws)

theorem chunk4R_length (s : Str) : (chunk4R s).length = (s.length + 3) / 4 := by
  induction s using chunk4R.induct with
  | case1 a b c d rest ih => rw [chunk4R]; simp [ih]; omega
  | case2 => rfl
  | case3 rem h1 h2 => rw [chunk4R.eq_def]; cases rem with
    | nil => simp at h2
    | cons x xs => cases xs with
      | nil => simp
      | cons y ys => cases ys with
        | nil => simp
        | cons z zs => cases zs with
          | nil => simp
          | cons w ws => exact absurd rfl (h1 x y z w ws)

theorem chunk4R_mem {s t : Str} (h : t ∈ chunk4R s) :
    t ≠ [] ∧ t.length ≤ 4 := by
  induction s using chunk4R.induct with
  | case1 a b c d rest ih =>
    rw [chunk4R] at h
    rcases List.mem_cons.mp h with h | h
    · subst h; exact ⟨by simp, by simp⟩
    · exact ih h
  | case2 => simp [chunk4R] at h
  | case3 rem h1 h2 =>
    rw [chunk4R.eq_def] at h
    cases rem with
    | nil => simp at h2
    | cons x xs => cases xs with
      | nil => simp at h; subst h; exact ⟨by simp, by simp⟩
      | cons y ys => cases ys with
        | nil => simp at h; subst h; exact ⟨by simp, by simp⟩
        | cons z zs => cases zs with
          | nil => simp at h; subst h; exact ⟨by simp, by simp⟩
          | cons w ws => exact absurd rfl (h1 x y z w ws)

theorem chunk3L_mem {s t : Str} (h : t ∈ chunk3L s) :
    t ≠ [] ∧ t.length ≤ 3 := by
  induction s using chunk3L.induct with
  | case1 a b c rest ih =>
    rw [chunk3L] at h
    rcases List.mem_cons.mp h with h | h
    · subst h; exact ⟨by simp, by simp⟩
    · exact ih h
  | case2 => simp [chunk3L] at h
  | case3 rem h1 h2 =>
    rw [chunk3L.eq_def] at h
    cases rem with
    | nil => simp at h2
    | cons x xs => cases xs with
      | nil => simp at h; subst h; exact ⟨by simp, by simp⟩
      | cons y ys => cases ys with
        | nil => simp at h; subst h; exact ⟨by simp, by simp⟩
        | cons z zs => exact absurd rfl (h1 x y z zs)

theorem join_reverse_map (L : List Str) :
    ((L.map List.reverse).reverse).join = L.join.reverse := by
  induction L with
  | nil => rfl
  | cons x xs ih =>
    simp only [List.map_cons, List.reverse_cons, List.join_append, ih,
      List.join_cons]
    simp

theorem splitIntoTriplesR_join (s : Str) : (splitIntoTriplesR s).join = s := by
  unfold splitIntoTriplesR
  rw [join_reverse_map, chunk3L_join, List.reverse_reverse]

theorem splitIntoQuadruples_join (s : Str) :
    (splitIntoQuadruples s).join = s := by
  unfold splitIntoQuadruples
  rw [join_reverse_map, chunk4R_join, List.reverse_reverse]

theorem splitIntoTriplesR_mem {s t : Str} (h : t ∈ splitIntoTriplesR s) :
    t ≠ [] ∧ t.length ≤ 3 := by
  unfold splitIntoTriplesR at h
  rw [List.mem_reverse, List.mem_map] at h
  obtain ⟨u, hu, rfl⟩ := h
  have := chunk3L_mem hu
  constructor
  · simpa using this.1
  · simpa using this.2

theorem splitIntoQuadruples_mem {s t : Str} (h : t ∈ splitIntoQuadruples s) :
    t ≠ [] ∧ t.length ≤ 4 := by
  unfold splitIntoQuadruples at h
  rw [List.mem_reverse, List.mem_map] at h
  obtain ⟨u, hu, rfl⟩ := h
  have := chunk4R_mem hu
  constructor
  · simpa using this.1
  · simpa using this.2

theorem splitIntoTriplesR_length (s : Str) :
    (splitIntoTriplesR s).length = (s.length + 2) / 3 := by
  unfold splitIntoTriplesR
  rw [List.length_reverse, List.length_map, chunk3L_length,
    List.length_reverse]

theorem splitIntoQuadruples_length (s : Str) :
    (splitIntoQuadruples s).length = (s.length + 3) / 4 := by
  unfold splitIntoQuadruples
  rw [List.length_reverse, List.length_map, chunk4R_length,
    List.length_reverse]

theorem splitIntoTriples_join (s : Str) :
    (splitIntoTriples s).join = padTo3 s := chunk3L_join (padTo3 s)

theorem splitIntoTriples_mem {s t : Str} (h : t ∈ splitIntoTriples s) :
    t ≠ [] ∧ t.length ≤ 3 := chunk3L_mem h

theorem splitIntoTriples_length_le {s : Str} (h : s.length ≤ 66) :
    (splitIntoTriples s).length ≤ 22 := by
  unfold splitIntoTriples
  rw [chunk3L_length]
  have := padTo3_length_le h
  omega

theorem allDigits_of_join {L : List Str} {t : Str}
    (hd : allDigits L.join = true) (h : t ∈ L) : allDigits t = true := by
  simp only [allDigits, List.all_eq_true] at hd ⊢
  intro c hc
  exact hd c (List.mem_join.mpr ⟨t, h, hc⟩)

theorem natOfDigits_join_eq_zero {L : List Str} :
    natOfDigits L.join = 0 ↔ ∀ t ∈ L, natOfDigits t = 0 := by
  induction L with
  | nil => simp [natOfDigits]
  | cons x xs ih =>
    have hj : (x :: xs).join = x ++ xs.join := rfl
    rw [hj, natOfDigits_append]
    have hpow : 0 < 10 ^ (xs.join).length := pow_pos (by norm_num) _
    constructor
    · intro h0
      have hx : natOfDigits x = 0 := by nlinarith
      have hxs : natOfDigits xs.join = 0 := by omega
      intro t ht
      rcases List.mem_cons.mp ht with h | h
      · subst h; exact hx
      · exact ih.mp hxs t h
    · intro hall
      rw [hall x (List.mem_cons_self x xs),
        ih.mpr (fun t ht => hall t (List.mem_cons_of_mem x ht))]
      ring

theorem natOfDigits_le_of_short {t : Str} (hd : allDigits t = true)
    (hl : t.length ≤ 3) : natOfDigits t ≤ 999 := by
  have := natOfDigits_lt hd
  have hle : (10 : Nat) ^ t.length ≤ 10 ^ 3 :=
    Nat.pow_le_pow_right (by norm_num) hl
  omega

theorem natOfDigits_le_of_quad {t : Str} (hd : allDigits t = true)
    (hl : t.length ≤ 4) : natOfDigits t ≤ 9999 := by
  have := natOfDigits_lt hd
  have hle : (10 : Nat) ^ t.length ≤ 10 ^ 4 :=
    Nat.pow_le_pow_right (by norm_num) hl
  omega

theorem digit_ne_dash {c : Char} (h : isDigitCh c = true) : c ≠ '-' := by
  intro hc; subst hc; revert h; decide

theorem digit_not_WS {c : Char} (h : isDigitCh c = true) : isWS c = false :=
  isWS_eq_false h

theorem contains_eq_false {s : Str} {x : Char} (h : ∀ c ∈ s, c ≠ x) :
    s.contains x = false := by
  by_contra hc
  rw [Bool.not_eq_false] at hc
  have := List.elem_iff.mp hc
  exact h x this rfl

theorem contains_of_mem {s : Str} {x : Char} (h : x ∈ s) :
    s.contains x = true := List.elem_iff.mpr h

theorem filter_digits_of_digits {s : Str} (h : allDigits s = true) :
    s.filter isDigitCh = s := by
  rw [List.filter_eq_self]
  simp only [allDigits, List.all_eq_true] at h
  exact h

theorem literalIsZero_int {ds : Str} (hd : allDigits ds = true) :
    literalIsZero ds = (natOfDigits ds = 0 : Bool) := by
  unfold literalIsZero
  have hc : ds.contains '.' = false := by
    apply contains_eq_false
    intro c hcm
    apply digit_ne_dot
    simp only [allDigits, List.all_eq_true] at hd
    exact hd c hcm
  rw [hc]
  simp only [Bool.false_eq_true, if_false]

theorem literalIsZero_frac {ds fs : Str} (hd : allDigits ds = true)
    (hf : allDigits fs = true) :
    literalIsZero (ds ++ '.' :: fs) =
      (natOfDigits (ds ++ fs) * 2 ^ 1075 ≤ 10 ^ fs.length : Bool) := by
  unfold literalIsZero
  have hcontains : (ds ++ '.' :: fs).contains '.' = true :=
    contains_of_mem (List.mem_append.mpr (Or.inr (List.mem_cons_self '.' fs)))
  rw [hcontains, if_pos rfl]
  have hnodot1 : ∀ c ∈ ds, c ≠ '.' := by
    intro c hcm
    apply digit_ne_dot
    simp only [allDigits, List.all_eq_true] at hd
    exact hd c hcm
  have hnodot2 : ∀ c ∈ fs, c ≠ '.' := by
    intro c hcm
    apply digit_ne_dot
    simp only [allDigits, List.all_eq_true] at hf
    exact hf c hcm
  rw [splitOnChar_append hnodot1, splitOnChar_of_not_mem hnodot2]
  rfl

/-- A value below half the smallest subnormal has a zero integer part. -/
theorem underflow_imp_int_zero {ds fs : Str}
    (h : natOfDigits (ds ++ fs) * 2 ^ 1075 ≤ 10 ^ fs.length) :
    natOfDigits ds = 0 := by
  rw [natOfDigits_append] at h
  by_contra hnz
  have h1 : 1 ≤ natOfDigits ds := Nat.one_le_iff_ne_zero.mpr hnz
  have hp : 1 ≤ 10 ^ fs.length := Nat.one_le_pow _ _ (by omega)
  have h2 : 10 ^ fs.length ≤ natOfDigits ds * 10 ^ fs.length :=
    Nat.le_mul_of_pos_left _ (by omega)
  have h3 : natOfDigits ds * 10 ^ fs.length ≤
      natOfDigits ds * 10 ^ fs.length + natOfDigits fs := Nat.le_add_right _ _
  have hA : 2 ≤ 2 ^ 1075 := by
    have hh := Nat.pow_le_pow_right (show 1 ≤ 2 by omega)
      (show 1 ≤ 1075 by omega)
    rw [pow_one] at hh
    exact hh
  have hS2 : (natOfDigits ds * 10 ^ fs.length + natOfDigits fs) * 2 ≤
      (natOfDigits ds * 10 ^ fs.length + natOfDigits fs) * 2 ^ 1075 :=
    Nat.mul_le_mul_left _ hA
  omega

/-- Small-value characterization of the zero test on integer strings. -/
theorem underflow_le_one_iff (n : Nat) : n * 2 ^ 1075 ≤ 1 ↔ n = 0 := by
  constructor
  · intro hle
    by_contra hnz
    have h1 : 1 ≤ n := Nat.one_le_iff_ne_zero.mpr hnz
    have h2 : 1 * 2 ^ 1075 ≤ n * 2 ^ 1075 := Nat.mul_le_mul_right _ h1
    rw [one_mul] at h2
    have h3 : (2 : Nat) ^ 1 ≤ 2 ^ 1075 :=
      Nat.pow_le_pow_right (by omega) (by omega)
    rw [pow_one] at h3
    omega
  · intro h0
    rw [h0]
    omega

theorem natOfDigits_append_zero (a : Str) :
    natOfDigits (a ++ ['0']) = 10 * natOfDigits a := by
  unfold natOfDigits
  rw [List.foldl_append]
  simp only [List.foldl_cons, List.foldl_nil]
  have h0 : digitVal '0' = 0 := rfl
  rw [h0]
  omega

theorem allDigits_append_zeroCh {fs : Str} (hf : allDigits fs = true) :
    allDigits (fs ++ ['0']) = true := by
  simp only [allDigits] at hf ⊢
  rw [List.all_append, hf, Bool.true_and]
  decide

/-- Appending a trailing zero to the fraction does not change the zero
test. -/
theorem underflow_append_zero_iff (ds fs : Str) :
    (natOfDigits (ds ++ (fs ++ ['0'])) * 2 ^ 1075 ≤
        10 ^ (fs ++ ['0']).length) ↔
      (natOfDigits (ds ++ fs) * 2 ^ 1075 ≤ 10 ^ fs.length) := by
  have h1 : ds ++ (fs ++ ['0']) = (ds ++ fs) ++ ['0'] :=
    (List.append_assoc ds fs ['0']).symm
  have h2 : (fs ++ ['0']).length = fs.length + 1 := by simp
  rw [h1, natOfDigits_append_zero, h2, pow_succ, Nat.mul_assoc]
  constructor <;> intro h <;> omega

theorem splitIntoTriples_zero_iff {ds : Str} (hd : allDigits ds = true) :
    (∀ t ∈ splitIntoTriples ds, natOfDigits t = 0) ↔ natOfDigits ds = 0 := by
  have hj := splitIntoTriples_join ds
  constructor
  · intro hall
    have := natOfDigits_join_eq_zero.mpr hall
    rw [hj, natOfDigits_padTo3] at this
    exact this
  · intro h0
    apply natOfDigits_join_eq_zero.mp
    rw [hj, natOfDigits_padTo3]
    exact h0

theorem splitIntoTriplesR_zero_iff {ds : Str} (hd : allDigits ds = true) :
    (∀ t ∈ splitIntoTriplesR ds, natOfDigits t = 0) ↔ natOfDigits ds = 0 := by
  have hj := splitIntoTriplesR_join ds
  constructor
  · intro hall
    have := natOfDigits_join_eq_zero.mpr hall
    rw [hj] at this
    exact this
  · intro h0
    apply natOfDigits_join_eq_zero.mp
    rw [hj]
    exact h0

theorem splitIntoTriples_allDigits {ds t : Str} (hd : allDigits ds = true)
    (h : t ∈ splitIntoTriples ds) : allDigits t = true := by
  refine allDigits_of_join ?_ h
  rw [splitIntoTriples_join]
  exact allDigits_padTo3 hd

theorem splitIntoTriplesR_allDigits {ds t : Str} (hd : allDigits ds = true)
    (h : t ∈ splitIntoTriplesR ds) : allDigits t = true := by
  refine allDigits_of_join ?_ h
  rw [splitIntoTriplesR_join]
  exact hd

theorem splitIntoQuadruples_allDigits {ds t : Str} (hd : allDigits ds = true)
    (h : t ∈ splitIntoQuadruples ds) : allDigits t = true := by
  refine allDigits_of_join ?_ h
  rw [splitIntoQuadruples_join]
  exact hd

theorem exceptBindEq {α β : Type} (m : Except Str α) (f : α → Except Str β) :
    m >>= f = m.bind f := rfl

theorem exceptBindOk {α β : Type} (a : α) (f : α → Except Str β) :
    (Except.ok a : Except Str α).bind f = f a := rfl

theorem intercalate_cons_append (sep p : Str) (rest : List Str) :
    ∃ q : Str, List.intercalate sep (p :: rest) = p ++ q := by
  cases rest with
  | nil => exact ⟨[], by simp [List.intercalate]⟩
  | cons r rs =>
    refine ⟨sep ++ List.intercalate sep (r :: rs), ?_⟩
    simp [List.intercalate, List.intersperse]

end Harfizer

namespace PersianLanguagePlugin

open Harfizer

theorem jsRow_default_zero :
    jsRow DEFAULT_LEXICON 0 = Except.ok (DEFAULT_LEXICON.getD 0 []) := rfl

theorem jsRow_default_one :
    jsRow DEFAULT_LEXICON 1 = Except.ok (DEFAULT_LEXICON.getD 1 []) := rfl

theorem jsRow_default_two :
    jsRow DEFAULT_LEXICON 2 = Except.ok (DEFAULT_LEXICON.getD 2 []) := rfl

theorem jsRow_default_three :
    jsRow DEFAULT_LEXICON 3 = Except.ok (DEFAULT_LEXICON.getD 3 []) := rfl

theorem jsRow_default_four :
    jsRow DEFAULT_LEXICON 4 = Except.ok (DEFAULT_LEXICON.getD 4 []) := rfl

theorem convertTripleToWordsCore_default (v : Nat) :
    convertTripleToWordsCore v DEFAULT_LEXICON =
      Except.ok (convertTripleToWordsD v) := by
  unfold convertTripleToWordsCore convertTripleToWordsD
  simp only [jsRow_default_zero, jsRow_default_one, jsRow_default_two,
    jsRow_default_three, jsRow_default_four]
  split_ifs <;> rfl

theorem convertTripleToWords_eq_D (v : Nat) :
    convertTripleToWords v = convertTripleToWordsD v := by
  unfold convertTripleToWords
  rw [convertTripleToWordsCore_default]

theorem wordPartsLoop_default (ts : List Str) :
    wordPartsLoop DEFAULT_LEXICON ts = Except.ok (wordPartsD ts) := by
  induction ts with
  | nil => rfl
  | cons t rest ih =>
    show (convertTripleToWordsCore (natOfDigits t) DEFAULT_LEXICON).bind _ =
      _
    rw [convertTripleToWordsCore_default]
    show (if (convertTripleToWordsD (natOfDigits t)).isEmpty then
        wordPartsLoop DEFAULT_LEXICON rest
      else (jsRow DEFAULT_LEXICON 4).bind fun r4 =>
        (wordPartsLoop DEFAULT_LEXICON rest).bind fun tail =>
          Except.ok ((convertTripleToWordsD (natOfDigits t) ++
            jsEntry r4 rest.length) :: tail)) = _
    rw [ih, jsRow_default_four]
    have hw : wordPartsD (t :: rest) =
        (if (convertTripleToWordsD (natOfDigits t)).isEmpty then wordPartsD rest
         else (convertTripleToWordsD (natOfDigits t) ++
           jsEntry (DEFAULT_LEXICON.getD 4 []) rest.length) :: wordPartsD rest) :=
      rfl
    rw [hw]
    split_ifs <;> rfl

set_option maxRecDepth 10000 in
/-- Nonemptiness and leading character of the default Persian group words:
for group values between 1 and 999 the words are non-empty and never start
with the letter that begins the zero word. -/
theorem convertTripleToWordsD_ne_nil :
    ∀ v : Nat, v < 1000 → 0 < v →
      convertTripleToWordsD v ≠ [] ∧
        (convertTripleToWordsD v).headD ' ' ≠ 'ص' := by decide

theorem convertTripleToWordsD_zero : convertTripleToWordsD 0 = [] := rfl

theorem wordPartsD_eq_nil_iff {ts : List Str}
    (h : ∀ t ∈ ts, allDigits t = true ∧ t.length ≤ 3) :
    wordPartsD ts = [] ↔ ∀ t ∈ ts, natOfDigits t = 0 := by
  induction ts with
  | nil => simp [wordPartsD]
  | cons t rest ih =>
    have ht := h t (List.mem_cons_self t rest)
    have hrest := ih (fun u hu => h u (List.mem_cons_of_mem t hu))
    have hv : natOfDigits t ≤ 999 := natOfDigits_le_of_short ht.1 ht.2
    have hw : wordPartsD (t :: rest) =
        (if (convertTripleToWordsD (natOfDigits t)).isEmpty then wordPartsD rest
         else (convertTripleToWordsD (natOfDigits t) ++
           jsEntry (DEFAULT_LEXICON.getD 4 []) rest.length) :: wordPartsD rest) :=
      rfl
    rw [hw]
    by_cases hz : natOfDigits t = 0
    · rw [hz, convertTripleToWordsD_zero]
      simp only [List.isEmpty_nil, if_true]
      rw [hrest]
      constructor
      · intro hall u hu
        rcases List.mem_cons.mp hu with h1 | h1
        · subst h1; exact hz
        · exact hall u h1
      · intro hall u hu
        exact hall u (List.mem_cons_of_mem t hu)
    · have := convertTripleToWordsD_ne_nil (natOfDigits t) (by omega) (by omega)
      have hic : (convertTripleToWordsD (natOfDigits t)).isEmpty = false :=
        List.isEmpty_eq_false.mpr this.1
      rw [hic]
      simp only [Bool.false_eq_true, if_false]
      constructor
      · intro hcontra; exact absurd hcontra (by simp)
      · intro hall
        exact absurd (hall t (List.mem_cons_self t rest)) hz

theorem wordPartsD_head {ts : List Str}
    (h : ∀ t ∈ ts, allDigits t = true ∧ t.length ≤ 3) :
    wordPartsD ts = [] ∨
      ∃ p rest, wordPartsD ts = p :: rest ∧
        ∃ c q, p = c :: q ∧ c ≠ 'ص' := by
  induction ts with
  | nil => exact Or.inl rfl
  | cons t rest ih =>
    have ht := h t (List.mem_cons_self t rest)
    have hrest := ih (fun u hu => h u (List.mem_cons_of_mem t hu))
    have hv : natOfDigits t ≤ 999 := natOfDigits_le_of_short ht.1 ht.2
    have hw : wordPartsD (t :: rest) =
        (if (convertTripleToWordsD (natOfDigits t)).isEmpty then wordPartsD rest
         else (convertTripleToWordsD (natOfDigits t) ++
           jsEntry (DEFAULT_LEXICON.getD 4 []) rest.length) :: wordPartsD rest) :=
      rfl
    rw [hw]
    by_cases hz : natOfDigits t = 0
    · rw [hz, convertTripleToWordsD_zero]
      simp only [List.isEmpty_nil, if_true]
      exact hrest
    · have hne := convertTripleToWordsD_ne_nil (natOfDigits t) (by omega) (by omega)
      have hic : (convertTripleToWordsD (natOfDigits t)).isEmpty = false :=
        List.isEmpty_eq_false.mpr hne.1
      rw [hic]
      simp only [Bool.false_eq_true, if_false]
      right
      refine ⟨_, _, rfl, ?_⟩
      obtain ⟨c, q, hcq⟩ : ∃ c q, convertTripleToWordsD (natOfDigits t) = c :: q := by
        cases hh : convertTripleToWordsD (natOfDigits t) with
        | nil => exact absurd hh hne.1
        | cons c q => exact ⟨c, q, rfl⟩
      refine ⟨c, q ++ jsEntry (DEFAULT_LEXICON.getD 4 []) rest.length, ?_, ?_⟩
      · rw [hcq]; rfl
      · have := hne.2
        rw [hcq] at this
        simpa using this

/-- Reduction of the Persian `convertNumber` on a canonical input: an
optional minus sign, a non-empty digit string, and an optional dot-fraction.
The right-hand side exposes the zero branch, the 66-digit range check, the
group loop over the resolved lexicon, the fractional clause, and the
negative-word normalization exactly as the source composes them. -/
theorem convertNumberF_shape (fuel : Nat) (neg : Bool) (ds fs : Str)
    (hne : ds ≠ []) (hd : allDigits ds = true) (hf : allDigits fs = true)
    (opts : ConversionOptions) :
    convertNumberF (fuel + 1)
        ((if neg then ['-'] else []) ++ ds ++
          (if fs.isEmpty then [] else '.' :: fs)) opts =
      (if natOfDigits (ds ++ fs) * 2 ^ 1075 ≤ 10 ^ fs.length then
        Except.ok (opts.customZeroWord.getD ZERO_WORD)
      else if ds.length > 66 then Except.error outOfRangeMsg
      else
        (wordPartsLoop (opts.customLexicon.getD DEFAULT_LEXICON)
            (splitIntoTriples ds)).bind fun wp =>
          (if fs.isEmpty then Except.ok ([] : Str)
           else convertFractionalPartF (convertNumberF fuel) fs
             (opts.customDecimalSuffixes.getD DEFAULT_DECIMAL_SUFFIXES)).bind
            fun fw =>
            Except.ok
              ((if neg then
                  (if (opts.customNegativeWord.getD NEGATIVE_WORD).getLast? ≠
                      some ' ' then
                    opts.customNegativeWord.getD NEGATIVE_WORD ++ (" ").data
                  else opts.customNegativeWord.getD NEGATIVE_WORD)
                else []) ++
                List.intercalate (opts.customSeparator.getD DEFAULT_SEPARATOR)
                  wp ++ fw)) := by
  obtain ⟨d0, ds', rfl⟩ : ∃ d0 ds', ds = d0 :: ds' := by
    cases ds with
    | nil => exact absurd rfl hne
    | cons a b => exact ⟨a, b, rfl⟩
  have hd0 : isDigitCh d0 = true := by
    simp only [allDigits, List.all_cons, Bool.and_eq_true] at hd
    exact hd.1
  have hbody_mem : ∀ c ∈ (d0 :: ds') ++
      (if fs.isEmpty then [] else '.' :: fs), isDigitCh c = true ∨ c = '.' := by
    intro c hc
    rcases List.mem_append.mp hc with h1 | h1
    · left
      simp only [allDigits, List.all_eq_true] at hd
      exact hd c h1
    · by_cases hfe : fs.isEmpty
      · rw [if_pos hfe] at h1; simp at h1
      · rw [if_neg hfe] at h1
        rcases List.mem_cons.mp h1 with h2 | h2
        · right; exact h2
        · left
          simp only [allDigits, List.all_eq_true] at hf
          exact hf c h2
  have hclean : cleanSeps ((d0 :: ds') ++
      (if fs.isEmpty then [] else '.' :: fs)) =
      (d0 :: ds') ++ (if fs.isEmpty then [] else '.' :: fs) := by
    apply cleanSeps_eq_self
    intro c hc
    rcases hbody_mem c hc with h1 | h1
    · exact isSepChar_eq_false h1
    · subst h1; exact dot_isSepChar
  have hbodyWS : ∀ c ∈ (d0 :: ds') ++
      (if fs.isEmpty then [] else '.' :: fs), isWS c = false := by
    intro c hc
    rcases hbody_mem c hc with h1 | h1
    · exact isWS_eq_false h1
    · subst h1; decide
  have hvalidU : isValidUnsignedNum ((d0 :: ds') ++
      (if fs.isEmpty then [] else '.' :: fs)) = true := by
    by_cases hfe : fs.isEmpty
    · rw [if_pos hfe]
      rw [List.append_nil]
      exact isValidUnsignedNum_digits hne hd
    · rw [if_neg hfe]
      exact isValidUnsignedNum_frac hne
        (by simpa [List.isEmpty_iff] using hfe) hd hf
  have hsplitdot : splitOnChar '.' ((d0 :: ds') ++
      (if fs.isEmpty then [] else '.' :: fs)) =
      if fs.isEmpty then [(d0 :: ds')] else [(d0 :: ds'), fs] := by
    have hnodot : ∀ c ∈ (d0 :: ds'), c ≠ '.' := by
      intro c hc
      apply digit_ne_dot
      simp only [allDigits, List.all_eq_true] at hd
      exact hd c hc
    by_cases hfe : fs.isEmpty
    · rw [if_pos hfe, if_pos hfe, List.append_nil]
      exact splitOnChar_of_not_mem hnodot
    · rw [if_neg hfe, if_neg hfe]
      rw [splitOnChar_append hnodot]
      rw [splitOnChar_of_not_mem (fun c hc => digit_ne_dot (by
        simp only [allDigits, List.all_eq_true] at hf
        exact hf c hc))]
  have hlit : literalIsZero ((d0 :: ds') ++
      (if fs.isEmpty then [] else '.' :: fs)) =
      (natOfDigits ((d0 :: ds') ++ fs) * 2 ^ 1075 ≤ 10 ^ fs.length : Bool) := by
    by_cases hfe : fs.isEmpty
    · have hfs : fs = [] := by
        rw [List.isEmpty_iff] at hfe
        exact hfe
      subst hfs
      rw [if_pos hfe, List.append_nil, literalIsZero_int hd]
      rw [Bool.eq_iff_iff]
      simp only [decide_eq_true_eq, List.length_nil, pow_zero]
      exact (underflow_le_one_iff (natOfDigits (d0 :: ds'))).symm
    · rw [if_neg hfe]
      exact literalIsZero_frac hd hf
  have hcontains : ((d0 :: ds') ++
      (if fs.isEmpty then [] else '.' :: fs)).contains '.' =
      !fs.isEmpty := by
    by_cases hfe : fs.isEmpty
    · rw [if_pos hfe, List.append_nil, hfe]
      apply contains_eq_false
      intro c hc
      apply digit_ne_dot
      simp only [allDigits, List.all_eq_true] at hd
      exact hd c hc
    · rw [if_neg hfe]
      have h1 : ((d0 :: ds') ++ '.' :: fs).contains '.' = true :=
        contains_of_mem (List.mem_append.mpr (Or.inr (List.mem_cons_self '.' fs)))
      have h2 : fs.isEmpty = false := by simpa using hfe
      rw [h1, h2]
      rfl
  have hbig : bigIntOfDigits (d0 :: ds') = some (natOfDigits (d0 :: ds')) := by
    unfold bigIntOfDigits
    rw [hd]
    simp
  have hdash : decide (d0 = '-') = false :=
    decide_eq_false (digit_ne_dash hd0)
  cases fs with
  | nil =>
    cases neg with
    | false =>
      simp only [List.isEmpty_nil, if_true, Bool.false_eq_true, if_false, List.nil_append, List.append_nil] at hclean hbodyWS hvalidU hsplitdot hlit hcontains ⊢
      simp only [convertNumberF, trimWS_eq_self hbodyWS, List.cons_append,
        List.headD_cons, hdash, Bool.false_and, Bool.false_eq_true, if_false,
        hclean, hvalidU, Bool.not_true, hsplitdot, hlit, hcontains, hbig,
        isValidSignedNum, if_neg (digit_ne_dash hd0), exceptBindEq,
        exceptBindOk, List.get?_cons_succ, List.get?_nil, Option.getD_none,
        List.length_nil, decide_eq_true_eq, List.nil_append, List.append_nil,
        gt_iff_lt, Nat.lt_irrefl]
    | true =>
      simp only [List.isEmpty_nil, if_true, Bool.false_eq_true, if_false, List.nil_append, List.append_nil] at hclean hbodyWS hvalidU hsplitdot hlit hcontains ⊢
      have hbodyWSneg : ∀ c ∈ '-' :: d0 :: ds', isWS c = false := by
        intro c hc
        rcases List.mem_cons.mp hc with h1 | h1
        · subst h1; decide
        · exact hbodyWS c h1
      simp only [convertNumberF, List.cons_append, trimWS_eq_self hbodyWSneg,
        List.headD_cons, decide_True, Bool.true_and, List.isEmpty_cons,
        Bool.not_false, if_true, List.tail_cons, hclean, hdash,
        Bool.false_eq_true, if_false, hvalidU, Bool.not_true, hsplitdot, hlit,
        hcontains, hbig, isValidSignedNum, if_pos rfl, exceptBindEq,
        exceptBindOk, List.get?_cons_succ, List.get?_nil, Option.getD_none,
        List.length_nil, decide_eq_true_eq, List.nil_append, List.append_nil,
        gt_iff_lt, Nat.lt_irrefl]
  | cons f0 fs' =>
    cases neg with
    | false =>
      simp only [List.isEmpty_cons, Bool.false_eq_true, if_false, List.nil_append, List.cons_append] at hclean hbodyWS hvalidU hsplitdot hlit hcontains ⊢
      simp only [convertNumberF, trimWS_eq_self hbodyWS, List.cons_append,
        List.headD_cons, hdash, Bool.false_and, Bool.false_eq_true, if_false,
        hclean, hvalidU, Bool.not_true, hsplitdot, hlit, hcontains, hbig,
        isValidSignedNum, if_neg (digit_ne_dash hd0), exceptBindEq,
        exceptBindOk, List.get?_cons_succ, List.get?_nil, List.get?_cons_zero,
        Option.getD_some, List.length_cons, decide_eq_true_eq,
        List.nil_append, List.append_nil, gt_iff_lt, Bool.not_false,
        Nat.succ_pos, if_true]
    | true =>
      simp only [List.isEmpty_cons, Bool.false_eq_true, if_false, List.nil_append, List.cons_append] at hclean hbodyWS hvalidU hsplitdot hlit hcontains ⊢
      have hbodyWSneg : ∀ c ∈ '-' :: d0 :: (ds' ++ '.' :: f0 :: fs'), isWS c = false := by
        intro c hc
        rcases List.mem_cons.mp hc with h1 | h1
        · subst h1; decide
        · exact hbodyWS c h1
      simp only [convertNumberF, List.cons_append, trimWS_eq_self hbodyWSneg,
        List.headD_cons, decide_True, Bool.true_and, List.isEmpty_cons,
        Bool.not_false, if_true, List.tail_cons, hclean, hdash,
        Bool.false_eq_true, if_false, hvalidU, Bool.not_true, hsplitdot, hlit,
        hcontains, hbig, isValidSignedNum, if_pos rfl, exceptBindEq,
        exceptBindOk, List.get?_cons_succ, List.get?_nil, List.get?_cons_zero,
        Option.getD_some, List.length_cons, decide_eq_true_eq,
        List.nil_append, List.append_nil, gt_iff_lt, Nat.succ_pos]

end PersianLanguagePlugin


namespace EnglishLanguagePlugin

open Harfizer

/-- Reduction of the English `convertNumber` on a canonical input: an
optional minus sign, a non-empty digit string, and an optional dot-fraction.
The right-hand side exposes the literal zero test, the 66-digit range check,
the group loop, the digit-by-digit fractional clause, and the negative
prefix exactly as the source composes them. -/
theorem convertNumber_shape (neg : Bool) (ds fs : Str)
    (hne : ds ≠ []) (hd : allDigits ds = true) (hf : allDigits fs = true)
    (opts : ConversionOptions) :
    convertNumber
        ((if neg then ['-'] else []) ++ ds ++
          (if fs.isEmpty then [] else '.' :: fs)) opts =
      (if ds ++ (if fs.isEmpty then [] else '.' :: fs) = ("0").data ∨
          ds ++ (if fs.isEmpty then [] else '.' :: fs) = ("0.0").data then
        Except.ok (jsOrStr opts.customZeroWord ZERO_WORD)
      else if ds.length > 66 then Except.error outOfRangeMsg
      else
        Except.ok
          ((if neg then
              jsOrStr opts.customNegativeWord NEGATIVE_WORD ++
                jsOrStr opts.customSeparator DEFAULT_SEPARATOR
            else []) ++
            (List.intercalate (jsOrStr opts.customSeparator DEFAULT_SEPARATOR)
              (wordPartsE (splitIntoTriplesR ds)) ++
            (if fs.isEmpty then []
             else
               jsOrStr opts.customSeparator DEFAULT_SEPARATOR ++
                 ("point").data ++
                 jsOrStr opts.customSeparator DEFAULT_SEPARATOR ++
                 List.intercalate
                   (jsOrStr opts.customSeparator DEFAULT_SEPARATOR)
                   (fs.map (fun d => jsEntry digitNamesE (digitVal d))))))) := by
  obtain ⟨d0, ds2, rfl⟩ : ∃ d0 ds2, ds = d0 :: ds2 := by
    cases ds with
    | nil => exact absurd rfl hne
    | cons a b => exact ⟨a, b, rfl⟩
  have hd0 : isDigitCh d0 = true := by
    simp only [allDigits, List.all_cons, Bool.and_eq_true] at hd
    exact hd.1
  have hbody_mem : ∀ c ∈ (d0 :: ds2) ++
      (if fs.isEmpty then [] else '.' :: fs), isDigitCh c = true ∨ c = '.' := by
    intro c hc
    rcases List.mem_append.mp hc with h1 | h1
    · left
      simp only [allDigits, List.all_eq_true] at hd
      exact hd c h1
    · by_cases hfe : fs.isEmpty
      · rw [if_pos hfe] at h1; simp at h1
      · rw [if_neg hfe] at h1
        rcases List.mem_cons.mp h1 with h2 | h2
        · right; exact h2
        · left
          simp only [allDigits, List.all_eq_true] at hf
          exact hf c h2
  have hclean : cleanSeps ((d0 :: ds2) ++
      (if fs.isEmpty then [] else '.' :: fs)) =
      (d0 :: ds2) ++ (if fs.isEmpty then [] else '.' :: fs) := by
    apply cleanSeps_eq_self
    intro c hc
    rcases hbody_mem c hc with h1 | h1
    · exact isSepChar_eq_false h1
    · subst h1; exact dot_isSepChar
  have hbodyWS : ∀ c ∈ (d0 :: ds2) ++
      (if fs.isEmpty then [] else '.' :: fs), isWS c = false := by
    intro c hc
    rcases hbody_mem c hc with h1 | h1
    · exact isWS_eq_false h1
    · subst h1; decide
  have hvalidU : isValidUnsignedNum ((d0 :: ds2) ++
      (if fs.isEmpty then [] else '.' :: fs)) = true := by
    by_cases hfe : fs.isEmpty
    · rw [if_pos hfe]
      rw [List.append_nil]
      exact isValidUnsignedNum_digits hne hd
    · rw [if_neg hfe]
      exact isValidUnsignedNum_frac hne
        (by simpa [List.isEmpty_iff] using hfe) hd hf
  have hsplitdot : splitOnChar '.' ((d0 :: ds2) ++
      (if fs.isEmpty then [] else '.' :: fs)) =
      if fs.isEmpty then [(d0 :: ds2)] else [(d0 :: ds2), fs] := by
    have hnodot : ∀ c ∈ (d0 :: ds2), c ≠ '.' := by
      intro c hc
      apply digit_ne_dot
      simp only [allDigits, List.all_eq_true] at hd
      exact hd c hc
    by_cases hfe : fs.isEmpty
    · rw [if_pos hfe, if_pos hfe, List.append_nil]
      exact splitOnChar_of_not_mem hnodot
    · rw [if_neg hfe, if_neg hfe]
      rw [splitOnChar_append hnodot]
      rw [splitOnChar_of_not_mem (fun c hc => digit_ne_dot (by
        simp only [allDigits, List.all_eq_true] at hf
        exact hf c hc))]
  have hdash : decide (d0 = '-') = false :=
    decide_eq_false (digit_ne_dash hd0)
  cases fs with
  | nil =>
    cases neg with
    | false =>
      simp only [List.isEmpty_nil, if_true, Bool.false_eq_true, if_false, List.nil_append, List.append_nil] at hclean hbodyWS hvalidU hsplitdot ⊢
      simp only [convertNumber, trimWS_eq_self hbodyWS, List.cons_append,
        List.headD_cons, hdash, Bool.false_and, Bool.false_eq_true, if_false,
        hclean, hvalidU, Bool.not_true, hsplitdot,
        exceptBindEq, exceptBindOk, List.get?_cons_succ, List.get?_nil,
        Option.getD_none, List.length_nil, decide_eq_true_eq,
        List.nil_append, List.append_nil, gt_iff_lt, Nat.lt_irrefl,
        Bool.or_eq_true]
    | true =>
      simp only [List.isEmpty_nil, if_true, Bool.false_eq_true, if_false, List.nil_append, List.append_nil] at hclean hbodyWS hvalidU hsplitdot ⊢
      have hbodyWSneg : ∀ c ∈ '-' :: d0 :: ds2, isWS c = false := by
        intro c hc
        rcases List.mem_cons.mp hc with h1 | h1
        · subst h1; decide
        · exact hbodyWS c h1
      simp only [convertNumber, List.cons_append, trimWS_eq_self hbodyWSneg,
        List.headD_cons, decide_True, Bool.true_and, List.isEmpty_cons,
        Bool.not_false, if_true, List.tail_cons, hclean, hdash,
        Bool.false_eq_true, if_false, hvalidU, Bool.not_true, hsplitdot,
        exceptBindEq, exceptBindOk, List.get?_cons_succ, List.get?_nil,
        Option.getD_none, List.length_nil, decide_eq_true_eq,
        List.nil_append, List.append_nil, gt_iff_lt, Nat.lt_irrefl,
        Bool.or_eq_true]
  | cons f0 fs2 =>
    cases neg with
    | false =>
      simp only [List.isEmpty_cons, Bool.false_eq_true, if_false, List.nil_append, List.cons_append] at hclean hbodyWS hvalidU hsplitdot ⊢
      simp only [convertNumber, trimWS_eq_self hbodyWS, List.cons_append,
        List.headD_cons, hdash, Bool.false_and, Bool.false_eq_true, if_false,
        hclean, hvalidU, Bool.not_true, hsplitdot,
        exceptBindEq, exceptBindOk, List.get?_cons_succ, List.get?_nil,
        List.get?_cons_zero, Option.getD_some, List.length_cons,
        decide_eq_true_eq, List.nil_append, List.append_nil, gt_iff_lt,
        Nat.succ_pos, if_true, Bool.or_eq_true, List.append_assoc]
    | true =>
      simp only [List.isEmpty_cons, Bool.false_eq_true, if_false, List.nil_append, List.cons_append] at hclean hbodyWS hvalidU hsplitdot ⊢
      have hbodyWSneg : ∀ c ∈ '-' :: d0 :: (ds2 ++ '.' :: f0 :: fs2), isWS c = false := by
        intro c hc
        rcases List.mem_cons.mp hc with h1 | h1
        · subst h1; decide
        · exact hbodyWS c h1
      simp only [convertNumber, List.cons_append, trimWS_eq_self hbodyWSneg,
        List.headD_cons, decide_True, Bool.true_and, List.isEmpty_cons,
        Bool.not_false, if_true, List.tail_cons, hclean, hdash,
        Bool.false_eq_true, if_false, hvalidU, Bool.not_true, hsplitdot,
        exceptBindEq, exceptBindOk, List.get?_cons_succ, List.get?_nil,
        List.get?_cons_zero, Option.getD_some, List.length_cons,
        decide_eq_true_eq, List.nil_append, List.append_nil, gt_iff_lt,
        Nat.succ_pos, Bool.or_eq_true, List.append_assoc]

end EnglishLanguagePlugin


namespace Harfizer

theorem dropWhileRev_append_zero (fs : Str) :
    ((fs ++ ['0']).reverse.dropWhile (fun c => c = '0')).reverse =
      (fs.reverse.dropWhile (fun c => c = '0')).reverse := by
  rw [List.reverse_append]
  rfl

theorem dropWhileRev_replicate (k : Nat) :
    ((List.replicate k '0').reverse.dropWhile (fun c => c = '0')).reverse =
      ([] : Str) := by
  rw [List.reverse_replicate]
  have : (List.replicate k '0').dropWhile (fun c => c = '0') = [] := by
    rw [List.dropWhile_eq_nil_iff]
    intro x hx
    simp [List.eq_of_mem_replicate hx]
  rw [this]
  rfl

theorem dropWhileRev_eq_nil_iff {fs : Str} (hf : allDigits fs = true) :
    (fs.reverse.dropWhile (fun c => c = '0')).reverse = [] ↔
      natOfDigits fs = 0 := by
  rw [List.reverse_eq_nil_iff, List.dropWhile_eq_nil_iff,
    natOfDigits_eq_zero_iff hf]
  constructor
  · intro h c hc
    simpa using h c (List.mem_reverse.mpr hc)
  · intro h c hc
    simp [h c (List.mem_reverse.mp hc)]

theorem natOfDigits_replicate_zero (k : Nat) :
    natOfDigits (List.replicate k '0') = 0 := by
  have hall : allDigits (List.replicate k '0') = true := by
    simp only [allDigits, List.all_eq_true]
    intro c hc
    rw [List.eq_of_mem_replicate hc]
    decide
  rw [natOfDigits_eq_zero_iff hall]
  exact fun c hc => List.eq_of_mem_replicate hc

theorem allDigits_replicate_zero (k : Nat) :
    allDigits (List.replicate k '0') = true := by
  simp only [allDigits, List.all_eq_true]
  intro c hc
  rw [List.eq_of_mem_replicate hc]
  decide

theorem intercalate_append_singleton {xs : List Str} (sep x : Str)
    (h : xs ≠ []) :
    List.intercalate sep (xs ++ [x]) =
      List.intercalate sep xs ++ sep ++ x := by
  induction xs with
  | nil => exact absurd rfl h
  | cons a as ih =>
    cases as with
    | nil => simp [List.intercalate, List.intersperse]
    | cons b bs =>
      have hgen : ∀ (y : Str) (l : List Str),
          List.intercalate sep (a :: y :: l) =
            a ++ sep ++ List.intercalate sep (y :: l) := by
        intro y l
        simp [List.intercalate, List.intersperse, List.append_assoc]
      have hstep : (b :: bs) ++ [x] = b :: (bs ++ [x]) := rfl
      show List.intercalate sep (a :: ((b :: bs) ++ [x])) = _
      rw [hstep, hgen b (bs ++ [x]), ← hstep, ih (by simp), hgen b bs]
      simp [List.append_assoc]

end Harfizer

namespace EnglishLanguagePlugin

open Harfizer

set_option maxRecDepth 10000 in
/-- Nonemptiness and leading character of the English group words. -/
theorem convertTripleToWords_ne_nilE :
    ∀ v : Nat, v < 1000 → 0 < v →
      convertTripleToWords v ≠ [] ∧
        (convertTripleToWords v).headD ' ' ≠ 'z' := by decide

theorem convertTripleToWords_zero : convertTripleToWords 0 = [] := rfl

theorem wordPartsE_eq_nil_iff {ts : List Str}
    (h : ∀ t ∈ ts, allDigits t = true ∧ t.length ≤ 3) :
    wordPartsE ts = [] ↔ ∀ t ∈ ts, natOfDigits t = 0 := by
  induction ts with
  | nil => simp [wordPartsE]
  | cons t rest ih =>
    have ht := h t (List.mem_cons_self t rest)
    have hrest := ih (fun u hu => h u (List.mem_cons_of_mem t hu))
    have hv : natOfDigits t ≤ 999 := natOfDigits_le_of_short ht.1 ht.2
    rw [wordPartsE]
    by_cases hz : natOfDigits t = 0
    · rw [hz, convertTripleToWords_zero]
      simp only [List.isEmpty_nil, if_true]
      rw [hrest]
      constructor
      · intro hall u hu
        rcases List.mem_cons.mp hu with h1 | h1
        · subst h1; exact hz
        · exact hall u h1
      · intro hall u hu
        exact hall u (List.mem_cons_of_mem t hu)
    · have hne := convertTripleToWords_ne_nilE (natOfDigits t) (by omega) (by omega)
      have hic : (convertTripleToWords (natOfDigits t)).isEmpty = false :=
        List.isEmpty_eq_false.mpr hne.1
      rw [hic]
      simp only [Bool.false_eq_true, if_false]
      constructor
      · intro hcontra; exact absurd hcontra (by simp)
      · intro hall
        exact absurd (hall t (List.mem_cons_self t rest)) hz

theorem wordPartsE_head {ts : List Str}
    (h : ∀ t ∈ ts, allDigits t = true ∧ t.length ≤ 3) :
    wordPartsE ts = [] ∨
      ∃ p rest, wordPartsE ts = p :: rest ∧
        ∃ c q, p = c :: q ∧ c ≠ 'z' := by
  induction ts with
  | nil => exact Or.inl rfl
  | cons t rest ih =>
    have ht := h t (List.mem_cons_self t rest)
    have hrest := ih (fun u hu => h u (List.mem_cons_of_mem t hu))
    have hv : natOfDigits t ≤ 999 := natOfDigits_le_of_short ht.1 ht.2
    rw [wordPartsE]
    by_cases hz : natOfDigits t = 0
    · rw [hz, convertTripleToWords_zero]
      simp only [List.isEmpty_nil, if_true]
      exact hrest
    · have hne := convertTripleToWords_ne_nilE (natOfDigits t) (by omega) (by omega)
      have hic : (convertTripleToWords (natOfDigits t)).isEmpty = false :=
        List.isEmpty_eq_false.mpr hne.1
      rw [hic]
      simp only [Bool.false_eq_true, if_false]
      right
      obtain ⟨c, q, hcq⟩ : ∃ c q, convertTripleToWords (natOfDigits t) = c :: q := by
        cases hh : convertTripleToWords (natOfDigits t) with
        | nil => exact absurd hh hne.1
        | cons c q => exact ⟨c, q, rfl⟩
      have hchar : c ≠ 'z' := by
        have := hne.2
        rw [hcq] at this
        simpa using this
      refine ⟨_, _, rfl, ?_⟩
      by_cases hsw : jsTruthyStr
          (if rest.length > 0 then SCALE.get? rest.length else some []) = true
      · rw [if_pos hsw]
        refine ⟨c, q ++ (" ").data ++ jsValStr
          (if rest.length > 0 then SCALE.get? rest.length else some []), ?_, hchar⟩
        rw [hcq]
        simp
      · rw [if_neg hsw]
        exact ⟨c, q, hcq, hchar⟩

end EnglishLanguagePlugin

namespace Harfizer

theorem mem_of_mem_dropWhile {p : Char → Bool} {l : Str} {c : Char}
    (h : c ∈ l.dropWhile p) : c ∈ l := by
  induction l with
  | nil => simpa [List.dropWhile] using h
  | cons a t ih =>
    rw [List.dropWhile] at h
    by_cases hp : p a = true
    · rw [hp] at h
      exact List.mem_cons_of_mem a (ih h)
    · rw [Bool.eq_false_iff.mpr hp] at h
      exact h

theorem allDigits_dropWhileRev {fs : Str} (hf : allDigits fs = true) :
    allDigits ((fs.reverse.dropWhile (fun c => c = '0')).reverse) = true := by
  simp only [allDigits, List.all_eq_true] at hf ⊢
  intro c hc
  exact hf c (List.mem_reverse.mp (mem_of_mem_dropWhile (List.mem_reverse.mp hc)))

theorem allDigits_take {fs : Str} (n : Nat) (hf : allDigits fs = true) :
    allDigits (fs.take n) = true := by
  simp only [allDigits, List.all_eq_true] at hf ⊢
  intro c hc
  exact hf c (List.take_subset n fs hc)

theorem jsEntry_ne_nil {row : List Str} (h : ∀ r ∈ row, r ≠ []) (i : Nat) :
    jsEntry row i ≠ [] := by
  unfold jsEntry
  cases hr : row.get? i with
  | none => simp
  | some r =>
    simp only [Option.getD_some]
    exact h r (List.get?_mem hr)

end Harfizer

namespace PersianLanguagePlugin

open Harfizer

/-- The integer-only specialization of the master reduction. -/
theorem convertNumberF_int (fuel : Nat) (ds : Str) (hne : ds ≠ [])
    (hd : allDigits ds = true) (opts : ConversionOptions) :
    convertNumberF (fuel + 1) ds opts =
      if natOfDigits ds = 0 then
        Except.ok (opts.customZeroWord.getD ZERO_WORD)
      else if ds.length > 66 then Except.error outOfRangeMsg
      else
        (wordPartsLoop (opts.customLexicon.getD DEFAULT_LEXICON)
            (splitIntoTriples ds)).bind fun wp =>
          Except.ok
            (List.intercalate (opts.customSeparator.getD DEFAULT_SEPARATOR) wp) := by
  have h := convertNumberF_shape fuel false ds [] hne hd rfl opts
  simp only [List.isEmpty_nil, if_true, Bool.false_eq_true, if_false,
    List.nil_append, List.append_nil, List.length_nil, pow_zero,
    exceptBindOk] at h
  have hiff : (natOfDigits ds * 2 ^ 1075 ≤ 1) = (natOfDigits ds = 0) :=
    propext (underflow_le_one_iff (natOfDigits ds))
  simp only [hiff] at h
  exact h

/-- With the default options and an in-range integer input, the conversion
succeeds and is the joined default word parts. -/
theorem convertNumberF_int_default (fuel : Nat) (ds : Str) (hne : ds ≠ [])
    (hd : allDigits ds = true) (hlen : ds.length ≤ 66) :
    convertNumberF (fuel + 1) ds noOptions =
      if natOfDigits ds = 0 then Except.ok ZERO_WORD
      else
        Except.ok
          (List.intercalate DEFAULT_SEPARATOR (wordPartsD (splitIntoTriples ds))) := by
  rw [convertNumberF_int fuel ds hne hd noOptions]
  have hno1 : noOptions.customLexicon = none := rfl
  have hno2 : noOptions.customSeparator = none := rfl
  have hno3 : noOptions.customZeroWord = none := rfl
  have hlen2 : ¬ ds.length > 66 := by omega
  by_cases hz : natOfDigits ds = 0
  · rw [if_pos hz, if_pos hz, hno3]; rfl
  · rw [if_neg hz, if_neg hz, if_neg hlen2, hno1, hno2]
    simp only [Option.getD_none, wordPartsLoop_default, exceptBindOk]

/-- The fractional helper always succeeds on a digit fraction; its value is
empty exactly when the fraction is numerically zero, and otherwise begins
with a space. -/
theorem convertFractionalPartF_ok (fuel : Nat) (fs : Str) (sufs : List Str)
    (hf : allDigits fs = true) :
    ∃ fw, convertFractionalPartF (convertNumberF (fuel + 1)) fs sufs =
        Except.ok fw ∧ (natOfDigits fs = 0 → fw = []) ∧
        (natOfDigits fs ≠ 0 → ∃ r, fw = ' ' :: r) := by
  unfold convertFractionalPartF
  by_cases hstrip : ((fs.reverse.dropWhile (fun c => c = '0')).reverse : Str) = []
  · refine ⟨[], ?_, fun _ => rfl, fun hnz => ?_⟩
    · rw [hstrip]
      rfl
    · exact absurd ((dropWhileRev_eq_nil_iff hf).mp hstrip) hnz
  · have hall : allDigits ((fs.reverse.dropWhile (fun c => c = '0')).reverse) = true :=
      allDigits_dropWhileRev hf
    set g : Str := (fs.reverse.dropWhile (fun c => c = '0')).reverse with hg
    have hgne : g ≠ [] := hstrip
    have hie : g.isEmpty = false := List.isEmpty_eq_false.mpr hgne
    have hnz0 : natOfDigits fs ≠ 0 := by
      intro hz
      exact hstrip ((dropWhileRev_eq_nil_iff hf).mpr hz)
    simp only [hie, Bool.false_eq_true, if_false]
    by_cases hlen : g.length > 11
    · simp only [if_pos hlen]
      have htne : g.take 11 ≠ [] := by
        intro hcontra
        have := congrArg List.length hcontra
        rw [List.length_take] at this
        simp only [List.length_nil] at this
        omega
      have htd : allDigits (g.take 11) = true := allDigits_take 11 hall
      have hrun := convertNumberF_int_default fuel (g.take 11) htne htd
        (by rw [List.length_take]; omega)
      by_cases hz : natOfDigits (g.take 11) = 0
      · rw [if_pos hz] at hrun
        simp only [hrun, exceptBindEq, exceptBindOk]
        exact ⟨_, rfl, fun hz => absurd hz hnz0, fun _ => ⟨_, rfl⟩⟩
      · rw [if_neg hz] at hrun
        simp only [hrun, exceptBindEq, exceptBindOk]
        exact ⟨_, rfl, fun hz => absurd hz hnz0, fun _ => ⟨_, rfl⟩⟩
    · simp only [if_neg hlen]
      have hrun := convertNumberF_int_default fuel g hgne hall (by omega)
      by_cases hz : natOfDigits g = 0
      · rw [if_pos hz] at hrun
        simp only [hrun, exceptBindEq, exceptBindOk]
        exact ⟨_, rfl, fun hz => absurd hz hnz0, fun _ => ⟨_, rfl⟩⟩
      · rw [if_neg hz] at hrun
        simp only [hrun, exceptBindEq, exceptBindOk]
        exact ⟨_, rfl, fun hz => absurd hz hnz0, fun _ => ⟨_, rfl⟩⟩

end PersianLanguagePlugin

namespace RussianLanguagePlugin

open Harfizer

set_option maxRecDepth 10000 in
/-- Nonemptiness of the Russian group words for values 1 to 999. -/
theorem convertTripleToWords_ne_nilR :
    ∀ v : Nat, v < 1000 → 0 < v → convertTripleToWords v ≠ [] := by decide

end RussianLanguagePlugin

namespace GermanLanguagePlugin

open Harfizer

set_option maxRecDepth 10000 in
/-- Nonemptiness of the German group words for values 1 to 999. -/
theorem convertTripleToWords_ne_nilG :
    ∀ v : Nat, v < 1000 → 0 < v → convertTripleToWords v ≠ [] := by decide

end GermanLanguagePlugin

namespace FrenchLanguagePlugin

open Harfizer

set_option maxRecDepth 10000 in
/-- Nonemptiness of the French group words for values 1 to 999. -/
theorem convertTripleToWords_ne_nilF :
    ∀ v : Nat, v < 1000 → 0 < v → convertTripleToWords v ≠ [] := by decide

end FrenchLanguagePlugin

namespace SpanishLanguagePlugin

open Harfizer

set_option maxRecDepth 10000 in
/-- Nonemptiness of the Spanish group words for values 1 to 999. -/
theorem convertTripleToWords_ne_nilS :
    ∀ v : Nat, v < 1000 → 0 < v → convertTripleToWords v ≠ [] := by decide

end SpanishLanguagePlugin

namespace ChineseLanguagePlugin

open Harfizer

theorem digitsC_entries_ne_nil : ∀ r ∈ digitsC, r ≠ [] := by decide

theorem convertBelowTenThousandF_ne_nilC (fuel : Nat) :
    ∀ n : Nat, n < 10000 → convertBelowTenThousandF (fuel + 1) n ≠ [] := by
  intro n h2
  have hJ : ∀ i, jsEntry digitsC i ≠ [] :=
    jsEntry_ne_nil digitsC_entries_ne_nil
  unfold convertBelowTenThousandF
  split_ifs <;> simp_all [List.append_eq_nil] <;>
    (try split_ifs <;> simp_all [List.append_eq_nil])

/-- Nonemptiness of the Chinese group words for values 1 to 9999. -/
theorem convertTripleToWords_ne_nilC :
    ∀ v : Nat, v < 10000 → 0 < v → convertTripleToWords v ≠ [] := by
  intro v h1 h2
  unfold convertTripleToWords
  rw [if_neg (by omega)]
  exact convertBelowTenThousandF_ne_nilC 3 v h1

end ChineseLanguagePlugin

namespace JapaneseLanguagePlugin

open Harfizer

theorem digitsJ_entries_ne_nil : ∀ r ∈ digitsJ, r ≠ [] := by decide

theorem convertBelowTenThousandF_ne_nilJ (fuel : Nat) :
    ∀ n : Nat, n < 10000 → convertBelowTenThousandF (fuel + 1) n ≠ [] := by
  intro n h2
  have hJ : ∀ i, jsEntry digitsJ i ≠ [] :=
    jsEntry_ne_nil digitsJ_entries_ne_nil
  unfold convertBelowTenThousandF
  split_ifs <;> simp_all [List.append_eq_nil] <;>
    (try split_ifs <;> simp_all [List.append_eq_nil])

/-- Nonemptiness of the Japanese group words for values 1 to 9999. -/
theorem convertTripleToWords_ne_nilJ :
    ∀ v : Nat, v < 10000 → 0 < v → convertTripleToWords v ≠ [] := by
  intro v h1 h2
  unfold convertTripleToWords
  rw [if_neg (by omega)]
  exact convertBelowTenThousandF_ne_nilJ 3 v h1

end JapaneseLanguagePlugin

namespace PersianLanguagePlugin

open Harfizer

theorem convertTripleToWordsCore_nil_lex {v : Nat} (hv : v ≠ 0) :
    convertTripleToWordsCore v [] =
      Except.error ("TypeError: Cannot read properties of undefined").data := by
  unfold convertTripleToWordsCore
  rw [if_neg hv]
  split_ifs <;> first
  | rfl
  | (simp only []; split_ifs <;> rfl)

theorem wordPartsLoop_nil_lex {ts : List Str}
    (h : ∃ t ∈ ts, natOfDigits t ≠ 0) :
    wordPartsLoop [] ts =
      Except.error ("TypeError: Cannot read properties of undefined").data := by
  induction ts with
  | nil => obtain ⟨t, ht, _⟩ := h; simp at ht
  | cons t rest ih =>
    show (convertTripleToWordsCore (natOfDigits t) []).bind _ = _
    by_cases hz : natOfDigits t = 0
    · rw [hz]
      have hcz : convertTripleToWordsCore 0 [] = Except.ok [] := rfl
      rw [hcz, exceptBindOk]
      simp only [List.isEmpty_nil, if_true]
      apply ih
      obtain ⟨u, hu, hunz⟩ := h
      rcases List.mem_cons.mp hu with h1 | h1
      · subst h1; exact absurd hz hunz
      · exact ⟨u, h1, hunz⟩
    · rw [convertTripleToWordsCore_nil_lex hz]
      rfl

end PersianLanguagePlugin

open Harfizer in
theorem c1_persian_half :
    ∀ (neg : Bool) (ds fs : Str), ds ≠ [] → allDigits ds = true →
      allDigits fs = true →
      (PersianLanguagePlugin.convertNumber
          ((if neg then ['-'] else []) ++ ds ++
            (if fs.isEmpty then [] else '.' :: fs)) noOptions =
        Except.ok PersianLanguagePlugin.ZERO_WORD ↔
        natOfDigits (ds ++ fs) * 2 ^ 1075 ≤ 10 ^ fs.length) := by
  intro neg ds fs hne hd hf
  have hwf : ∀ t ∈ splitIntoTriples ds, allDigits t = true ∧ t.length ≤ 3 :=
    fun t ht => ⟨splitIntoTriples_allDigits hd ht, (splitIntoTriples_mem ht).2⟩
  have hcn : PersianLanguagePlugin.convertNumber
      ((if neg then ['-'] else []) ++ ds ++
        (if fs.isEmpty then [] else '.' :: fs)) noOptions =
      PersianLanguagePlugin.convertNumberF (1 + 1)
        ((if neg then ['-'] else []) ++ ds ++
          (if fs.isEmpty then [] else '.' :: fs)) noOptions := rfl
  rw [hcn, PersianLanguagePlugin.convertNumberF_shape 1 neg ds fs hne hd hf]
  by_cases hz : natOfDigits (ds ++ fs) * 2 ^ 1075 ≤ 10 ^ fs.length
  · rw [if_pos hz]
    exact iff_of_true rfl hz
  · rw [if_neg hz]
    constructor
    · intro hok
      exfalso
      by_cases hlen : ds.length > 66
      · rw [if_pos hlen] at hok
        exact absurd hok (by simp)
      · rw [if_neg hlen] at hok
        have hn1 : noOptions.customLexicon = none := rfl
        have hn2 : noOptions.customSeparator = none := rfl
        have hn3 : noOptions.customNegativeWord = none := rfl
        have hn4 : noOptions.customDecimalSuffixes = none := rfl
        simp only [hn1, hn2, hn3, hn4, Option.getD_none] at hok
        rw [PersianLanguagePlugin.wordPartsLoop_default] at hok
        simp only [exceptBindOk] at hok
        obtain ⟨fw, hfw, hfz, hfnz⟩ :=
          PersianLanguagePlugin.convertFractionalPartF_ok 0 fs
            PersianLanguagePlugin.DEFAULT_DECIMAL_SUFFIXES hf
        have hfw1 : PersianLanguagePlugin.convertFractionalPartF
            (PersianLanguagePlugin.convertNumberF 1) fs
            PersianLanguagePlugin.DEFAULT_DECIMAL_SUFFIXES = Except.ok fw := hfw
        have hNW : PersianLanguagePlugin.NEGATIVE_WORD = 'م' :: ("نفی ").data := rfl
        have hZW : PersianLanguagePlugin.ZERO_WORD = 'ص' :: ("فر").data := rfl
        have hcond : ¬(PersianLanguagePlugin.NEGATIVE_WORD.getLast? ≠ some ' ') := by
          decide
        by_cases hfe : fs.isEmpty = true
        · rw [if_pos hfe] at hok
          simp only [exceptBindOk] at hok
          have hval := Except.ok.inj hok
          cases neg with
          | true =>
            rw [if_pos rfl, if_neg hcond, hNW, hZW, List.cons_append] at hval
            exact absurd (List.cons.inj hval).1 (by decide)
          | false =>
            rw [if_neg (by simp), List.nil_append] at hval
            rcases PersianLanguagePlugin.wordPartsD_head hwf with hnilW |
              ⟨p, rest, hwp, c, q, hpc, hcne⟩
            · rw [hnilW] at hval
              have : (List.intercalate PersianLanguagePlugin.DEFAULT_SEPARATOR
                  ([] : List Str)) = [] := rfl
              rw [this, List.nil_append, hZW] at hval
              exact absurd hval (by simp)
            · rw [hwp] at hval
              obtain ⟨q2, hq2⟩ := intercalate_cons_append
                PersianLanguagePlugin.DEFAULT_SEPARATOR p rest
              rw [hq2, hpc, hZW] at hval
              simp only [List.cons_append, List.append_assoc] at hval
              exact absurd (List.cons.inj hval).1 hcne
        · rw [if_neg hfe] at hok
          rw [hfw1] at hok
          simp only [exceptBindOk] at hok
          have hval := Except.ok.inj hok
          cases neg with
          | true =>
            rw [if_pos rfl, if_neg hcond, hNW, hZW, List.cons_append] at hval
            exact absurd (List.cons.inj hval).1 (by decide)
          | false =>
            rw [if_neg (by simp), List.nil_append] at hval
            rcases PersianLanguagePlugin.wordPartsD_head hwf with hnilW |
              ⟨p, rest, hwp, c, q, hpc, hcne⟩
            · rw [hnilW] at hval
              have hic : (List.intercalate PersianLanguagePlugin.DEFAULT_SEPARATOR
                  ([] : List Str)) = [] := rfl
              rw [hic, List.nil_append, hZW] at hval
              have hds0 : natOfDigits ds = 0 :=
                (splitIntoTriples_zero_iff hd).mp
                  ((PersianLanguagePlugin.wordPartsD_eq_nil_iff hwf).mp hnilW)
              have hfs : natOfDigits fs ≠ 0 := by
                intro h0
                apply hz
                rw [natOfDigits_append, hds0, h0]
                simp
              obtain ⟨r, hr⟩ := hfnz hfs
              rw [hr] at hval
              exact absurd (List.cons.inj hval).1 (by decide)
            · rw [hwp] at hval
              obtain ⟨q2, hq2⟩ := intercalate_cons_append
                PersianLanguagePlugin.DEFAULT_SEPARATOR p rest
              rw [hq2, hpc, hZW] at hval
              simp only [List.cons_append, List.append_assoc] at hval
              exact absurd (List.cons.inj hval).1 hcne
    · intro h
      exact absurd h hz

open Harfizer in
theorem c1_english_half :
    ∀ (neg : Bool) (ds fs : Str), ds ≠ [] → allDigits ds = true →
      allDigits fs = true →
      (EnglishLanguagePlugin.convertNumber
          ((if neg then ['-'] else []) ++ ds ++
            (if fs.isEmpty then [] else '.' :: fs)) noOptions =
        Except.ok EnglishLanguagePlugin.ZERO_WORD ↔
        (ds ++ (if fs.isEmpty then [] else '.' :: fs) = ("0").data ∨
          ds ++ (if fs.isEmpty then [] else '.' :: fs) = ("0.0").data)) := by
  intro neg ds fs hne hd hf
  have hwf : ∀ t ∈ splitIntoTriplesR ds, allDigits t = true ∧ t.length ≤ 3 :=
    fun t ht => ⟨splitIntoTriplesR_allDigits hd ht, (splitIntoTriplesR_mem ht).2⟩
  rw [EnglishLanguagePlugin.convertNumber_shape neg ds fs hne hd hf noOptions]
  by_cases hlit : (ds ++ (if fs.isEmpty then [] else '.' :: fs) = ("0").data ∨
      ds ++ (if fs.isEmpty then [] else '.' :: fs) = ("0.0").data)
  · rw [if_pos hlit]
    exact iff_of_true rfl hlit
  · rw [if_neg hlit]
    constructor
    · intro hok
      exfalso
      by_cases hlen : ds.length > 66
      · rw [if_pos hlen] at hok
        exact absurd hok (by simp)
      · rw [if_neg hlen] at hok
        have hval := Except.ok.inj hok
        have hZW : EnglishLanguagePlugin.ZERO_WORD = 'z' :: ("ero").data := rfl
        have hsep : jsOrStr noOptions.customSeparator
            EnglishLanguagePlugin.DEFAULT_SEPARATOR = [' '] := rfl
        cases neg with
        | true =>
          rw [if_pos rfl] at hval
          have hNW : jsOrStr noOptions.customNegativeWord
              EnglishLanguagePlugin.NEGATIVE_WORD = 'm' :: ("inus").data := rfl
          rw [hNW, hsep, hZW] at hval
          simp only [List.cons_append, List.append_assoc] at hval
          exact absurd (List.cons.inj hval).1 (by decide)
        | false =>
          rw [if_neg (by simp), List.nil_append] at hval
          rcases EnglishLanguagePlugin.wordPartsE_head hwf with hnilW |
            ⟨p, rest, hwp, c, q, hpc, hcne⟩
          · rw [hnilW] at hval
            have hic : (List.intercalate (jsOrStr noOptions.customSeparator
                EnglishLanguagePlugin.DEFAULT_SEPARATOR) ([] : List Str)) = [] := rfl
            rw [hic, List.nil_append] at hval
            by_cases hfe : fs.isEmpty = true
            · rw [if_pos hfe, hZW] at hval
              exact absurd hval (by simp)
            · rw [if_neg hfe, hsep, hZW] at hval
              simp only [List.cons_append] at hval
              exact absurd (List.cons.inj hval).1 (by decide)
          · rw [hwp] at hval
            obtain ⟨q2, hq2⟩ := intercalate_cons_append
              (jsOrStr noOptions.customSeparator
                EnglishLanguagePlugin.DEFAULT_SEPARATOR) p rest
            rw [hq2, hpc, hZW] at hval
            simp only [List.cons_append, List.append_assoc] at hval
            exact absurd (List.cons.inj hval).1 hcne
    · intro h
      exact absurd h hlit

open Harfizer in
theorem c1_persian_bounded :
    ∀ (neg : Bool) (ds fs : Str), ds ≠ [] → allDigits ds = true →
      allDigits fs = true → fs.length ≤ 323 →
      (PersianLanguagePlugin.convertNumber
          ((if neg then ['-'] else []) ++ ds ++
            (if fs.isEmpty then [] else '.' :: fs)) noOptions =
        Except.ok PersianLanguagePlugin.ZERO_WORD ↔
        (natOfDigits ds = 0 ∧ natOfDigits fs = 0)) := by
  intro neg ds fs hne hd hf hk
  rw [c1_persian_half neg ds fs hne hd hf]
  constructor
  · intro hle
    have hN : natOfDigits (ds ++ fs) = 0 := by
      by_contra hnz
      have h1 : 1 ≤ natOfDigits (ds ++ fs) := Nat.one_le_iff_ne_zero.mpr hnz
      have h2 : 1 * 2 ^ 1075 ≤ natOfDigits (ds ++ fs) * 2 ^ 1075 :=
        Nat.mul_le_mul_right _ h1
      rw [one_mul] at h2
      have h3 : (10 : Nat) ^ fs.length ≤ 10 ^ 323 :=
        Nat.pow_le_pow_right (by omega) hk
      have h4 : (10 : Nat) ^ 323 < 2 ^ 1075 := by decide
      omega
    rw [natOfDigits_append] at hN
    have h5 : natOfDigits ds * 10 ^ fs.length = 0 ∧ natOfDigits fs = 0 := by
      omega
    rcases Nat.mul_eq_zero.mp h5.1 with h6 | h6
    · exact ⟨h6, h5.2⟩
    · have h7 : 0 < (10 : Nat) ^ fs.length := pow_pos (by omega) _
      omega
  · rintro ⟨h1, h2⟩
    rw [natOfDigits_append, h1, h2]
    simp

/-- C1: for canonical valid inputs, the Persian plugin returns the zero word
exactly when `parseFloat` of the cleaned body is zero — that is, exactly when
the unsigned magnitude is at most `2 ^ (-1075)` (true in particular whenever
the magnitude is numerically zero, and also for nonzero fractions of more
than 323 digits that underflow double precision); for fractions of at most
323 digits this coincides with the magnitude being exactly zero.  The
English plugin instead returns its zero word exactly when the cleaned
unsigned body is the literal string "0" or "0.0", so inputs such as "00" are
magnitude-zero but do not produce the zero word. -/
theorem c1_zero_word_characterization :
    (∀ (neg : Bool) (ds fs : Harfizer.Str), ds ≠ [] →
      Harfizer.allDigits ds = true → Harfizer.allDigits fs = true →
      (PersianLanguagePlugin.convertNumber
          ((if neg then ['-'] else []) ++ ds ++
            (if fs.isEmpty then [] else '.' :: fs)) Harfizer.noOptions =
        Except.ok PersianLanguagePlugin.ZERO_WORD ↔
        Harfizer.natOfDigits (ds ++ fs) * 2 ^ 1075 ≤ 10 ^ fs.length)) ∧
    (∀ (neg : Bool) (ds fs : Harfizer.Str), ds ≠ [] →
      Harfizer.allDigits ds = true → Harfizer.allDigits fs = true →
      fs.length ≤ 323 →
      (PersianLanguagePlugin.convertNumber
          ((if neg then ['-'] else []) ++ ds ++
            (if fs.isEmpty then [] else '.' :: fs)) Harfizer.noOptions =
        Except.ok PersianLanguagePlugin.ZERO_WORD ↔
        (Harfizer.natOfDigits ds = 0 ∧ Harfizer.natOfDigits fs = 0))) ∧
    (∀ (neg : Bool) (ds fs : Harfizer.Str), ds ≠ [] →
      Harfizer.allDigits ds = true → Harfizer.allDigits fs = true →
      (EnglishLanguagePlugin.convertNumber
          ((if neg then ['-'] else []) ++ ds ++
            (if fs.isEmpty then [] else '.' :: fs)) Harfizer.noOptions =
        Except.ok EnglishLanguagePlugin.ZERO_WORD ↔
        (ds ++ (if fs.isEmpty then [] else '.' :: fs) = ("0").data ∨
          ds ++ (if fs.isEmpty then [] else '.' :: fs) = ("0.0").data))) :=
  ⟨c1_persian_half, c1_persian_bounded, c1_english_half⟩

/-- C1 witness: the characterization applied at the concrete input "45". -/
theorem c1_zero_word_characterization_witness :
    (PersianLanguagePlugin.convertNumber (("45").data) Harfizer.noOptions =
        Except.ok PersianLanguagePlugin.ZERO_WORD ↔
      (Harfizer.natOfDigits (("45").data) = 0 ∧
        Harfizer.natOfDigits ([] : Harfizer.Str) = 0)) := by
  have h := c1_zero_word_characterization.2.1 false (("45").data) []
    (by decide) (by decide) (by decide) (by decide)
  simpa using h

/-- C1 counterexample: the English input "00" has magnitude zero yet the
conversion yields the empty string, not the zero word. -/
theorem c1_counterexample :
    Harfizer.natOfDigits (("00").data) = 0 ∧
    EnglishLanguagePlugin.convertNumber (("00").data) Harfizer.noOptions =
      Except.ok [] ∧
    ([] : Harfizer.Str) ≠ EnglishLanguagePlugin.ZERO_WORD := by
  exact ⟨rfl, rfl, by decide⟩

open Harfizer in
theorem persian_triple_eq_default (v : Nat) :
    PersianLanguagePlugin.convertTripleToWords v =
      PersianLanguagePlugin.convertTripleToWordsD v := by
  unfold PersianLanguagePlugin.convertTripleToWords
  rw [PersianLanguagePlugin.convertTripleToWordsCore_default]

/-- C2: the Chinese scale table has only four entries, so the seventeen-digit
input "10000000000000000" splits into five four-digit groups and the scale
lookup at index 4 is out of bounds; the JavaScript text "undefined" is
concatenated into the returned words. -/
theorem c2_chinese_scale_out_of_bounds :
    ChineseLanguagePlugin.convertNumber (("10000000000000000").data)
        Harfizer.noOptions = Except.ok (("一undefined").data) ∧
      ChineseLanguagePlugin.SCALE.get? 4 = none := ⟨rfl, rfl⟩

/-- C4: the `useNegativeWord` option field is never read by the conversion:
any two settings of the field give identical results, and the legacy
converter still emits the negative word when the caller disables it. -/
theorem c4_useNegativeWord_never_read :
    (∀ (input : Harfizer.Str) (opts : Harfizer.ConversionOptions)
        (x y : Option Bool),
      HarfizerConverter.convert input { opts with useNegativeWord := x } =
        HarfizerConverter.convert input { opts with useNegativeWord := y }) ∧
    HarfizerConverter.convert (("-45").data)
        { Harfizer.noOptions with useNegativeWord := some false } =
      Except.ok (("منفی چهل و پنج").data) := by
  constructor
  · intro input opts x y
    cases opts
    rfl
  · rfl

/-- C10: for the seven non-Persian plugins, the output of `convertNumber` is
independent of the `customLexicon` and `customDecimalSuffixes` option
fields. -/
theorem c10_lexicon_fields_inert :
    ∀ (input : Harfizer.Str) (opts : Harfizer.ConversionOptions)
      (lex lex' : Option (List (List Harfizer.Str)))
      (dec dec' : Option (List Harfizer.Str)),
      EnglishLanguagePlugin.convertNumber input
          { opts with customLexicon := lex, customDecimalSuffixes := dec } =
        EnglishLanguagePlugin.convertNumber input
          { opts with customLexicon := lex', customDecimalSuffixes := dec' } ∧
      RussianLanguagePlugin.convertNumber input
          { opts with customLexicon := lex, customDecimalSuffixes := dec } =
        RussianLanguagePlugin.convertNumber input
          { opts with customLexicon := lex', customDecimalSuffixes := dec' } ∧
      GermanLanguagePlugin.convertNumber input
          { opts with customLexicon := lex, customDecimalSuffixes := dec } =
        GermanLanguagePlugin.convertNumber input
          { opts with customLexicon := lex', customDecimalSuffixes := dec' } ∧
      FrenchLanguagePlugin.convertNumber input
          { opts with customLexicon := lex, customDecimalSuffixes := dec } =
        FrenchLanguagePlugin.convertNumber input
          { opts with customLexicon := lex', customDecimalSuffixes := dec' } ∧
      SpanishLanguagePlugin.convertNumber input
          { opts with customLexicon := lex, customDecimalSuffixes := dec } =
        SpanishLanguagePlugin.convertNumber input
          { opts with customLexicon := lex', customDecimalSuffixes := dec' } ∧
      ChineseLanguagePlugin.convertNumber input
          { opts with customLexicon := lex, customDecimalSuffixes := dec } =
        ChineseLanguagePlugin.convertNumber input
          { opts with customLexicon := lex', customDecimalSuffixes := dec' } ∧
      JapaneseLanguagePlugin.convertNumber input
          { opts with customLexicon := lex, customDecimalSuffixes := dec } =
        JapaneseLanguagePlugin.convertNumber input
          { opts with customLexicon := lex', customDecimalSuffixes := dec' } := by
  intro input opts lex lex' dec dec'
  cases opts
  exact ⟨rfl, rfl, rfl, rfl, rfl, rfl, rfl⟩

/-- C9: in every plugin, the group conversion of a value strictly between
zero and the group modulus (1000, or 10000 for the four-digit locales) is a
non-empty string, the group conversion of zero is the empty string, and the
empty string differs from the top-level zero word. -/
theorem c9_group_conversion :
    ((∀ v : Nat, v < 1000 → 0 < v →
        PersianLanguagePlugin.convertTripleToWords v ≠ []) ∧
      PersianLanguagePlugin.convertTripleToWords 0 = [] ∧
      PersianLanguagePlugin.ZERO_WORD ≠ []) ∧
    ((∀ v : Nat, v < 1000 → 0 < v →
        EnglishLanguagePlugin.convertTripleToWords v ≠ []) ∧
      EnglishLanguagePlugin.convertTripleToWords 0 = [] ∧
      EnglishLanguagePlugin.ZERO_WORD ≠ []) ∧
    ((∀ v : Nat, v < 1000 → 0 < v →
        RussianLanguagePlugin.convertTripleToWords v ≠ []) ∧
      RussianLanguagePlugin.convertTripleToWords 0 = []) ∧
    ((∀ v : Nat, v < 1000 → 0 < v →
        GermanLanguagePlugin.convertTripleToWords v ≠ []) ∧
      GermanLanguagePlugin.convertTripleToWords 0 = []) ∧
    ((∀ v : Nat, v < 1000 → 0 < v →
        FrenchLanguagePlugin.convertTripleToWords v ≠ []) ∧
      FrenchLanguagePlugin.convertTripleToWords 0 = []) ∧
    ((∀ v : Nat, v < 1000 → 0 < v →
        SpanishLanguagePlugin.convertTripleToWords v ≠ []) ∧
      SpanishLanguagePlugin.convertTripleToWords 0 = []) ∧
    ((∀ v : Nat, v < 10000 → 0 < v →
        ChineseLanguagePlugin.convertTripleToWords v ≠ []) ∧
      ChineseLanguagePlugin.convertTripleToWords 0 = []) ∧
    ((∀ v : Nat, v < 10000 → 0 < v →
        JapaneseLanguagePlugin.convertTripleToWords v ≠ []) ∧
      JapaneseLanguagePlugin.convertTripleToWords 0 = []) := by
  refine ⟨⟨?_, rfl, by decide⟩,
    ⟨fun v h1 h2 => (EnglishLanguagePlugin.convertTripleToWords_ne_nilE v h1 h2).1,
      rfl, by decide⟩,
    ⟨RussianLanguagePlugin.convertTripleToWords_ne_nilR, rfl⟩,
    ⟨GermanLanguagePlugin.convertTripleToWords_ne_nilG, rfl⟩,
    ⟨FrenchLanguagePlugin.convertTripleToWords_ne_nilF, rfl⟩,
    ⟨SpanishLanguagePlugin.convertTripleToWords_ne_nilS, rfl⟩,
    ⟨ChineseLanguagePlugin.convertTripleToWords_ne_nilC, rfl⟩,
    ⟨JapaneseLanguagePlugin.convertTripleToWords_ne_nilJ, rfl⟩⟩
  intro v h1 h2
  rw [persian_triple_eq_default]
  exact (PersianLanguagePlugin.convertTripleToWordsD_ne_nil v h1 h2).1

/-- C9 witness: the group conversions at the value 7 are non-empty. -/
theorem c9_group_conversion_witness :
    PersianLanguagePlugin.convertTripleToWords 7 ≠ [] ∧
      ChineseLanguagePlugin.convertTripleToWords 7 ≠ [] := by
  exact ⟨c9_group_conversion.1.1 7 (by decide) (by decide),
    c9_group_conversion.2.2.2.2.2.2.1.1 7 (by decide) (by decide)⟩

/-- C8: lexicon fallback is all-or-nothing: supplying the whole default
lexicon (or the whole default decimal-suffix table) is the same as supplying
nothing, but a partial lexicon does not fall back row by row — a group
conversion that needs a missing row throws a TypeError. -/
theorem c8_lexicon_fallback :
    (∀ (input : Harfizer.Str) (opts : Harfizer.ConversionOptions),
      PersianLanguagePlugin.convertNumber input
          { opts with customLexicon := some PersianLanguagePlugin.DEFAULT_LEXICON } =
        PersianLanguagePlugin.convertNumber input
          { opts with customLexicon := none }) ∧
    (∀ (input : Harfizer.Str) (opts : Harfizer.ConversionOptions),
      PersianLanguagePlugin.convertNumber input
          { opts with
            customDecimalSuffixes :=
              some PersianLanguagePlugin.DEFAULT_DECIMAL_SUFFIXES } =
        PersianLanguagePlugin.convertNumber input
          { opts with customDecimalSuffixes := none }) ∧
    (∀ ds : Harfizer.Str, ds ≠ [] → Harfizer.allDigits ds = true →
      Harfizer.natOfDigits ds ≠ 0 → ds.length ≤ 66 →
      PersianLanguagePlugin.convertNumber ds
          { Harfizer.noOptions with customLexicon := some [] } =
        Except.error (("TypeError: Cannot read properties of undefined").data)) := by
  refine ⟨?_, ?_, ?_⟩
  · intro input opts
    cases opts
    rfl
  · intro input opts
    cases opts
    rfl
  · intro ds hne hd hnz hlen
    have h := PersianLanguagePlugin.convertNumberF_int 1 ds hne hd
      { Harfizer.noOptions with customLexicon := some [] }
    rw [if_neg hnz, if_neg (by omega)] at h
    have hlex : ({ Harfizer.noOptions with
        customLexicon := some ([] : List (List Harfizer.Str)) } :
          Harfizer.ConversionOptions).customLexicon.getD
        PersianLanguagePlugin.DEFAULT_LEXICON = [] := rfl
    rw [hlex] at h
    have hex : ∃ t ∈ Harfizer.splitIntoTriples ds, Harfizer.natOfDigits t ≠ 0 := by
      by_contra hall
      push_neg at hall
      exact hnz ((Harfizer.splitIntoTriples_zero_iff hd).mp hall)
    rw [PersianLanguagePlugin.wordPartsLoop_nil_lex hex] at h
    exact h

/-- C8 witness: a nonzero two-digit input with an empty custom lexicon
throws the TypeError. -/
theorem c8_lexicon_fallback_witness :
    PersianLanguagePlugin.convertNumber (("45").data)
        { Harfizer.noOptions with customLexicon := some [] } =
      Except.error (("TypeError: Cannot read properties of undefined").data) :=
  c8_lexicon_fallback.2.2 (("45").data) (by decide) (by decide) (by decide)
    (by decide)

/-- C8 counterexample: a one-row custom lexicon (the default units row alone)
does not fall back to the default table for the missing rows: converting "5"
throws a TypeError, while the default call returns the word for five. -/
theorem c8_counterexample :
    PersianLanguagePlugin.convertNumber (("5").data)
        { Harfizer.noOptions with
          customLexicon := some (PersianLanguagePlugin.DEFAULT_LEXICON.take 1) } =
      Except.error (("TypeError: Cannot read properties of undefined").data) ∧
    PersianLanguagePlugin.convertNumber (("5").data) Harfizer.noOptions =
      Except.ok (("پنج").data) := ⟨rfl, rfl⟩

/-- C3: inputs with more than 66 canonical integer digits fail with the
out-of-range error and inputs with exactly 66 digits succeed — except that
the Persian plugin detects a zero magnitude before the length check, so an
all-zero over-long input returns the zero word instead (see the
counterexample); with a nonzero magnitude the bound is as specified. -/
theorem c3_range_check :
    (∀ ds : Harfizer.Str, ds ≠ [] → Harfizer.allDigits ds = true →
      Harfizer.natOfDigits ds ≠ 0 → 66 < ds.length →
      PersianLanguagePlugin.convertNumber ds Harfizer.noOptions =
        Except.error Harfizer.outOfRangeMsg) ∧
    (∀ ds : Harfizer.Str, Harfizer.allDigits ds = true → ds.length = 66 →
      ∃ w, PersianLanguagePlugin.convertNumber ds Harfizer.noOptions =
        Except.ok w) ∧
    (∀ ds : Harfizer.Str, ds ≠ [] → Harfizer.allDigits ds = true →
      66 < ds.length →
      EnglishLanguagePlugin.convertNumber ds Harfizer.noOptions =
        Except.error Harfizer.outOfRangeMsg) ∧
    (∀ ds : Harfizer.Str, Harfizer.allDigits ds = true → ds.length = 66 →
      ∃ w, EnglishLanguagePlugin.convertNumber ds Harfizer.noOptions =
        Except.ok w) := by
  have hlen0 : (("0").data).length = 1 := rfl
  have hlen00 : (("0.0").data).length = 3 := rfl
  have hids : ∀ ds : Harfizer.Str,
      (ds ++ (if ([] : Harfizer.Str).isEmpty then []
        else '.' :: ([] : Harfizer.Str))).length = ds.length := by
    intro ds
    simp
  refine ⟨?_, ?_, ?_, ?_⟩
  · intro ds hne hd hnz hlen
    have h := PersianLanguagePlugin.convertNumberF_int 1 ds hne hd
      Harfizer.noOptions
    rw [if_neg hnz, if_pos (by omega)] at h
    exact h
  · intro ds hd hlen
    have hne : ds ≠ [] := by
      intro hc
      rw [hc] at hlen
      simp at hlen
    have h := PersianLanguagePlugin.convertNumberF_int_default 1 ds hne hd
      (by omega)
    by_cases hz : Harfizer.natOfDigits ds = 0
    · rw [if_pos hz] at h
      exact ⟨_, h⟩
    · rw [if_neg hz] at h
      exact ⟨_, h⟩
  · intro ds hne hd hlen
    have h := EnglishLanguagePlugin.convertNumber_shape false ds [] hne hd rfl
      Harfizer.noOptions
    have he : (if (false : Bool) then ['-'] else []) ++ ds ++
        (if ([] : Harfizer.Str).isEmpty then []
          else '.' :: ([] : Harfizer.Str)) = ds := by
      simp
    rw [he] at h
    have hcond : ¬(ds ++ (if ([] : Harfizer.Str).isEmpty then []
          else '.' :: ([] : Harfizer.Str)) = ("0").data ∨
        ds ++ (if ([] : Harfizer.Str).isEmpty then []
          else '.' :: ([] : Harfizer.Str)) = ("0.0").data) := by
      rintro (hc | hc)
      · have := congrArg List.length hc
        rw [hids, hlen0] at this
        omega
      · have := congrArg List.length hc
        rw [hids, hlen00] at this
        omega
    rw [if_neg hcond, if_pos (by omega)] at h
    exact h
  · intro ds hd hlen
    have hne : ds ≠ [] := by
      intro hc
      rw [hc] at hlen
      simp at hlen
    have h := EnglishLanguagePlugin.convertNumber_shape false ds [] hne hd rfl
      Harfizer.noOptions
    have he : (if (false : Bool) then ['-'] else []) ++ ds ++
        (if ([] : Harfizer.Str).isEmpty then []
          else '.' :: ([] : Harfizer.Str)) = ds := by
      simp
    rw [he] at h
    have hcond : ¬(ds ++ (if ([] : Harfizer.Str).isEmpty then []
          else '.' :: ([] : Harfizer.Str)) = ("0").data ∨
        ds ++ (if ([] : Harfizer.Str).isEmpty then []
          else '.' :: ([] : Harfizer.Str)) = ("0.0").data) := by
      rintro (hc | hc)
      · have := congrArg List.length hc
        rw [hids, hlen0] at this
        omega
      · have := congrArg List.length hc
        rw [hids, hlen00] at this
        omega
    rw [if_neg hcond, if_neg (by omega)] at h
    exact ⟨_, h⟩

/-- C3 witness: a 66-digit all-zero input succeeds. -/
theorem c3_range_check_witness :
    ∃ w, PersianLanguagePlugin.convertNumber (List.replicate 66 '0')
        Harfizer.noOptions = Except.ok w :=
  c3_range_check.2.1 (List.replicate 66 '0') (by decide) (by decide)

/-- C3 counterexample: an all-zero input of 67 digits exceeds the documented
bound yet returns the zero word rather than the out-of-range error, because
the Persian zero check precedes the length check. -/
theorem c3_counterexample :
    66 < (List.replicate 67 '0' : Harfizer.Str).length ∧
    PersianLanguagePlugin.convertNumber (List.replicate 67 '0')
        Harfizer.noOptions = Except.ok PersianLanguagePlugin.ZERO_WORD ∧
    (Except.ok PersianLanguagePlugin.ZERO_WORD :
        Except Harfizer.Str Harfizer.Str) ≠
      Except.error Harfizer.outOfRangeMsg := by
  refine ⟨by decide, rfl, by simp⟩

/-- C6: in the Persian plugin the custom separator only joins the group
tokens: there are words `negw` and `fw` (the negative prefix and the
fractional clause), independent of the separator, such that for every
separator the output is exactly `negw ++ join ++ fw`, where `join` is the
group tokens interleaved with that separator; the English-style plugins also
use the separator around "point", between fractional digits, and after the
negative word (see the counterexample). -/
theorem c6_separator_scope :
    ∀ (neg : Bool) (ds fs : Harfizer.Str), ds ≠ [] →
      Harfizer.allDigits ds = true → Harfizer.allDigits fs = true →
      ¬(Harfizer.natOfDigits ds = 0 ∧ Harfizer.natOfDigits fs = 0) →
      ds.length ≤ 66 →
      ∃ negw fw : Harfizer.Str, ∀ sep : Harfizer.Str,
        PersianLanguagePlugin.convertNumber
            ((if neg then ['-'] else []) ++ ds ++
              (if fs.isEmpty then [] else '.' :: fs))
            { Harfizer.noOptions with customSeparator := some sep } =
          Except.ok (negw ++ List.intercalate sep
            (PersianLanguagePlugin.wordPartsD
              (Harfizer.splitIntoTriples ds)) ++ fw) := by
  intro neg ds fs hne hd hf hnz hlen
  by_cases hlit : Harfizer.natOfDigits (ds ++ fs) * 2 ^ 1075 ≤ 10 ^ fs.length
  · -- the magnitude rounds to zero: every group token is empty and the
    -- output is the zero word, independent of the separator
    have hds0 : Harfizer.natOfDigits ds = 0 :=
      Harfizer.underflow_imp_int_zero hlit
    have hwf : ∀ t ∈ Harfizer.splitIntoTriples ds,
        Harfizer.allDigits t = true ∧ t.length ≤ 3 :=
      fun t ht => ⟨Harfizer.splitIntoTriples_allDigits hd ht,
        (Harfizer.splitIntoTriples_mem ht).2⟩
    have hwp : PersianLanguagePlugin.wordPartsD
        (Harfizer.splitIntoTriples ds) = [] :=
      (PersianLanguagePlugin.wordPartsD_eq_nil_iff hwf).mpr
        ((Harfizer.splitIntoTriples_zero_iff hd).mpr hds0)
    refine ⟨[], PersianLanguagePlugin.ZERO_WORD, fun sep => ?_⟩
    have hcn : PersianLanguagePlugin.convertNumber
        ((if neg then ['-'] else []) ++ ds ++
          (if fs.isEmpty then [] else '.' :: fs))
        { Harfizer.noOptions with customSeparator := some sep } =
        PersianLanguagePlugin.convertNumberF (1 + 1)
          ((if neg then ['-'] else []) ++ ds ++
            (if fs.isEmpty then [] else '.' :: fs))
          { Harfizer.noOptions with customSeparator := some sep } := rfl
    rw [hcn, PersianLanguagePlugin.convertNumberF_shape 1 neg ds fs hne hd hf]
    rw [if_pos hlit, hwp]
    have hzw : ({ Harfizer.noOptions with customSeparator := some sep } :
        Harfizer.ConversionOptions).customZeroWord.getD
        PersianLanguagePlugin.ZERO_WORD = PersianLanguagePlugin.ZERO_WORD :=
      rfl
    rw [hzw]
    have hic : List.intercalate sep ([] : List Harfizer.Str) = [] := rfl
    rw [hic]
    rfl
  obtain ⟨fw0, hfw, _, _⟩ := PersianLanguagePlugin.convertFractionalPartF_ok 0
    fs PersianLanguagePlugin.DEFAULT_DECIMAL_SUFFIXES hf
  refine ⟨(if neg then PersianLanguagePlugin.NEGATIVE_WORD else []),
    (if fs.isEmpty then [] else fw0), fun sep => ?_⟩
  have hcn : PersianLanguagePlugin.convertNumber
      ((if neg then ['-'] else []) ++ ds ++
        (if fs.isEmpty then [] else '.' :: fs))
      { Harfizer.noOptions with customSeparator := some sep } =
      PersianLanguagePlugin.convertNumberF (1 + 1)
        ((if neg then ['-'] else []) ++ ds ++
          (if fs.isEmpty then [] else '.' :: fs))
        { Harfizer.noOptions with customSeparator := some sep } := rfl
  rw [hcn, PersianLanguagePlugin.convertNumberF_shape 1 neg ds fs hne hd hf]
  rw [if_neg hlit, if_neg (by omega)]
  have hlex : ({ Harfizer.noOptions with customSeparator := some sep } :
      Harfizer.ConversionOptions).customLexicon.getD
      PersianLanguagePlugin.DEFAULT_LEXICON =
      PersianLanguagePlugin.DEFAULT_LEXICON := rfl
  have hsufs : ({ Harfizer.noOptions with customSeparator := some sep } :
      Harfizer.ConversionOptions).customDecimalSuffixes.getD
      PersianLanguagePlugin.DEFAULT_DECIMAL_SUFFIXES =
      PersianLanguagePlugin.DEFAULT_DECIMAL_SUFFIXES := rfl
  have hsep : ({ Harfizer.noOptions with customSeparator := some sep } :
      Harfizer.ConversionOptions).customSeparator.getD
      PersianLanguagePlugin.DEFAULT_SEPARATOR = sep := rfl
  have hnw : ({ Harfizer.noOptions with customSeparator := some sep } :
      Harfizer.ConversionOptions).customNegativeWord.getD
      PersianLanguagePlugin.NEGATIVE_WORD =
      PersianLanguagePlugin.NEGATIVE_WORD := rfl
  rw [hlex, hsufs, hsep, hnw]
  have hcond : ¬(PersianLanguagePlugin.NEGATIVE_WORD.getLast? ≠ some ' ') := by
    decide
  rw [if_neg hcond]
  by_cases hfe : fs.isEmpty = true
  · rw [if_pos hfe, if_pos hfe]
    simp only [PersianLanguagePlugin.wordPartsLoop_default, Harfizer.exceptBindOk]
  · rw [if_neg hfe, if_neg hfe]
    have hfw1 : PersianLanguagePlugin.convertFractionalPartF
        (PersianLanguagePlugin.convertNumberF 1) fs
        PersianLanguagePlugin.DEFAULT_DECIMAL_SUFFIXES = Except.ok fw0 := hfw
    rw [hfw1]
    simp only [PersianLanguagePlugin.wordPartsLoop_default, Harfizer.exceptBindOk]

/-- C6 witness: the separator-scope property at the concrete input "-45". -/
theorem c6_separator_scope_witness :
    ∃ negw fw : Harfizer.Str, ∀ sep : Harfizer.Str,
      PersianLanguagePlugin.convertNumber (("-45").data)
          { Harfizer.noOptions with customSeparator := some sep } =
        Except.ok (negw ++ List.intercalate sep
          (PersianLanguagePlugin.wordPartsD
            (Harfizer.splitIntoTriples (("45").data))) ++ fw) := by
  have h := c6_separator_scope true (("45").data) [] (by decide) (by decide)
    (by decide) (by decide) (by decide)
  exact h

/-- C6 counterexample: in the English plugin a custom separator also joins
the negative word and the fractional clause; the input -1.5 has a single
group token, so under the claim the separator could not affect the output,
yet it does. -/
theorem c6_counterexample :
    EnglishLanguagePlugin.convertNumber (("-1.5").data)
        { Harfizer.noOptions with customSeparator := some (("_").data) } =
      Except.ok (("minus_one_point_five").data) ∧
    EnglishLanguagePlugin.convertNumber (("-1.5").data) Harfizer.noOptions =
      Except.ok (("minus one point five").data) := ⟨rfl, rfl⟩

namespace PersianLanguagePlugin

open Harfizer

/-- The fractional clause depends only on the first eleven digits of the
fraction after trailing zeros are stripped. -/
theorem convertFractionalPartF_take11
    (conv : Str → ConversionOptions → Except Str Str) (sufs : List Str)
    (fs gs : Str)
    (h : ((fs.reverse.dropWhile (fun c => c = '0')).reverse).take 11 =
      ((gs.reverse.dropWhile (fun c => c = '0')).reverse).take 11) :
    convertFractionalPartF conv fs sufs =
      convertFractionalPartF conv gs sufs := by
  unfold convertFractionalPartF
  by_cases hae : ((fs.reverse.dropWhile (fun c => c = '0')).reverse : Str) = []
  · have hbe : ((gs.reverse.dropWhile (fun c => c = '0')).reverse : Str) = [] := by
      rw [hae] at h
      simp only [List.take_nil] at h
      have h2 := h.symm
      rw [List.take_eq_nil_iff] at h2
      rcases h2 with h2 | h2
      · exact absurd h2 (by omega)
      · exact h2
    rw [hae, hbe]
  · have hbe : ((gs.reverse.dropWhile (fun c => c = '0')).reverse : Str) ≠ [] := by
      intro hb
      rw [hb] at h
      simp only [List.take_nil] at h
      rw [List.take_eq_nil_iff] at h
      rcases h with h | h
      · exact absurd h (by omega)
      · exact hae h
    have hia : ((fs.reverse.dropWhile (fun c => c = '0')).reverse : Str).isEmpty =
        false := List.isEmpty_eq_false.mpr hae
    have hib : ((gs.reverse.dropWhile (fun c => c = '0')).reverse : Str).isEmpty =
        false := List.isEmpty_eq_false.mpr hbe
    simp only [hia, hib, Bool.false_eq_true, if_false]
    have hta : (if ((fs.reverse.dropWhile (fun c => c = '0')).reverse : Str).length >
          11 then
        ((fs.reverse.dropWhile (fun c => c = '0')).reverse : Str).take 11
      else ((fs.reverse.dropWhile (fun c => c = '0')).reverse : Str)) =
        ((fs.reverse.dropWhile (fun c => c = '0')).reverse : Str).take 11 := by
      split_ifs with hl
      · rfl
      · exact (List.take_of_length_le (by omega)).symm
    have htb : (if ((gs.reverse.dropWhile (fun c => c = '0')).reverse : Str).length >
          11 then
        ((gs.reverse.dropWhile (fun c => c = '0')).reverse : Str).take 11
      else ((gs.reverse.dropWhile (fun c => c = '0')).reverse : Str)) =
        ((gs.reverse.dropWhile (fun c => c = '0')).reverse : Str).take 11 := by
      split_ifs with hl
      · rfl
      · exact (List.take_of_length_le (by omega)).symm
    rw [hta, htb, h]

/-- Appending a trailing zero to the fractional digits does not change the
Persian conversion. -/
theorem convertNumber_frac_append_zeroP (neg : Bool) (ds fs : Str)
    (hne : ds ≠ []) (hd : allDigits ds = true) (hf : allDigits fs = true) :
    convertNumber
        ((if neg then ['-'] else []) ++ ds ++ ('.' :: (fs ++ ['0'])))
        noOptions =
      convertNumber
        ((if neg then ['-'] else []) ++ ds ++
          (if fs.isEmpty then [] else '.' :: fs)) noOptions := by
  have hf2 : allDigits (fs ++ ['0']) = true := allDigits_append_zeroCh hf
  have hcanon : ('.' :: (fs ++ ['0']) : Str) =
      (if (fs ++ ['0']).isEmpty then [] else '.' :: (fs ++ ['0'])) := by
    simp
  rw [hcanon]
  have hL : convertNumber
      ((if neg then ['-'] else []) ++ ds ++
        (if (fs ++ ['0']).isEmpty then [] else '.' :: (fs ++ ['0'])))
      noOptions = convertNumberF (1 + 1)
      ((if neg then ['-'] else []) ++ ds ++
        (if (fs ++ ['0']).isEmpty then [] else '.' :: (fs ++ ['0'])))
      noOptions := rfl
  have hR : convertNumber
      ((if neg then ['-'] else []) ++ ds ++
        (if fs.isEmpty then [] else '.' :: fs)) noOptions =
      convertNumberF (1 + 1)
      ((if neg then ['-'] else []) ++ ds ++
        (if fs.isEmpty then [] else '.' :: fs)) noOptions := rfl
  rw [hL, hR, convertNumberF_shape 1 neg ds (fs ++ ['0']) hne hd hf2,
    convertNumberF_shape 1 neg ds fs hne hd hf]
  have hiff := underflow_append_zero_iff ds fs
  by_cases hz : natOfDigits (ds ++ fs) * 2 ^ 1075 ≤ 10 ^ fs.length
  · rw [if_pos (hiff.mpr hz), if_pos hz]
  · rw [if_neg (fun hc => hz (hiff.mp hc)), if_neg hz]
    by_cases hlen : ds.length > 66
    · rw [if_pos hlen, if_pos hlen]
    · rw [if_neg hlen, if_neg hlen]
      have hfe2 : ¬((fs ++ ['0']).isEmpty = true) := by simp
      rw [if_neg hfe2]
      by_cases hfe : fs.isEmpty = true
      · have hfs : fs = [] := by simpa [List.isEmpty_iff] using hfe
        subst hfs
        rw [if_pos hfe]
        have hcfp : convertFractionalPartF (convertNumberF 1)
            (([] : Str) ++ ['0'])
            (noOptions.customDecimalSuffixes.getD DEFAULT_DECIMAL_SUFFIXES) =
            Except.ok [] := rfl
        rw [hcfp]
      · rw [if_neg hfe]
        have hcfp := convertFractionalPartF_take11 (convertNumberF 1)
          (noOptions.customDecimalSuffixes.getD DEFAULT_DECIMAL_SUFFIXES)
          (fs ++ ['0']) fs (by rw [dropWhileRev_append_zero])
        rw [hcfp]

/-- A fraction consisting solely of zeros behaves like no fraction at all. -/
theorem convertNumber_frac_all_zeros (k : Nat) (neg : Bool) (ds : Str)
    (hne : ds ≠ []) (hd : allDigits ds = true) :
    convertNumber
        ((if neg then ['-'] else []) ++ ds ++
          (if (List.replicate k '0').isEmpty then []
            else '.' :: List.replicate k '0')) noOptions =
      convertNumber ((if neg then ['-'] else []) ++ ds ++ ([] : Str))
        noOptions := by
  induction k with
  | zero => rfl
  | succ n ih =>
    have hstep : (List.replicate (n + 1) '0' : Str) =
        List.replicate n '0' ++ ['0'] := List.replicate_succ' n '0'
    have hcanon : (if (List.replicate (n + 1) '0' : Str).isEmpty then []
        else '.' :: List.replicate (n + 1) '0') =
        ('.' :: (List.replicate n '0' ++ ['0']) : Str) := by
      rw [hstep]
      simp
    rw [hcanon,
      convertNumber_frac_append_zeroP neg ds (List.replicate n '0') hne hd
        (allDigits_replicate_zero n)]
    exact ih

end PersianLanguagePlugin

namespace EnglishLanguagePlugin

open Harfizer

/-- Appending a trailing zero to the fractional digits extends the English
output with a further separator and the digit word "zero": trailing zeros
are rendered, not stripped. -/
theorem convertNumber_frac_append_zeroE (neg : Bool) (ds fs : Str)
    (hne : ds ≠ []) (hd : allDigits ds = true) (hf : allDigits fs = true)
    (hfs : fs ≠ []) (hnz : natOfDigits ds ≠ 0) (hlen : ds.length ≤ 66) :
    ∃ w, convertNumber
        ((if neg then ['-'] else []) ++ ds ++ ('.' :: fs)) noOptions =
      Except.ok w ∧
      convertNumber
        ((if neg then ['-'] else []) ++ ds ++ ('.' :: (fs ++ ['0'])))
        noOptions = Except.ok (w ++ (" zero").data) := by
  have hf2 : allDigits (fs ++ ['0']) = true := allDigits_append_zeroCh hf
  have hfe : fs.isEmpty = false := List.isEmpty_eq_false.mpr hfs
  have hfe2 : (fs ++ ['0']).isEmpty = false := by simp
  have hc1 : ('.' :: fs : Str) = (if fs.isEmpty then [] else '.' :: fs) := by
    simp [hfe]
  have hc2 : ('.' :: (fs ++ ['0']) : Str) =
      (if (fs ++ ['0']).isEmpty then [] else '.' :: (fs ++ ['0'])) := by
    simp
  rw [hc1, hc2, convertNumber_shape neg ds fs hne hd hf noOptions,
    convertNumber_shape neg ds (fs ++ ['0']) hne hd hf2 noOptions]
  simp only [hfe, hfe2, Bool.false_eq_true, if_false]
  have hdp : 0 < ds.length := List.length_pos.mpr hne
  have hfp : 0 < fs.length := List.length_pos.mpr hfs
  have hl0 : (("0").data).length = 1 := rfl
  have hl00 : (("0.0").data).length = 3 := rfl
  have hlit1 : ¬(ds ++ '.' :: fs = ("0").data ∨
      ds ++ '.' :: fs = ("0.0").data) := by
    rintro (hc | hc)
    · have hl := congrArg List.length hc
      simp only [List.length_append, List.length_cons, hl0] at hl
      omega
    · have hl := congrArg List.length hc
      simp only [List.length_append, List.length_cons, hl00] at hl
      obtain ⟨d, ds2, rfl⟩ : ∃ d ds2, ds = d :: ds2 := by
        cases ds with
        | nil => exact absurd rfl hne
        | cons a b => exact ⟨a, b, rfl⟩
      cases ds2 with
      | cons e es =>
        simp only [List.length_cons] at hl
        omega
      | nil =>
        simp only [List.cons_append, List.nil_append] at hc
        have hd0 : d = '0' := (List.cons.inj hc).1
        exact hnz (by rw [hd0]; decide)
  have hlit2 : ¬(ds ++ '.' :: (fs ++ ['0']) = ("0").data ∨
      ds ++ '.' :: (fs ++ ['0']) = ("0.0").data) := by
    rintro (hc | hc)
    · have hl := congrArg List.length hc
      simp only [List.length_append, List.length_cons, hl0] at hl
      omega
    · have hl := congrArg List.length hc
      simp only [List.length_append, List.length_cons, hl00] at hl
      omega
  rw [if_neg hlit1, if_neg hlit2]
  have h66 : ¬ds.length > 66 := by omega
  rw [if_neg h66, if_neg h66]
  refine ⟨_, rfl, ?_⟩
  apply congrArg
  have hmap : (fs ++ ['0']).map (fun d => jsEntry digitNamesE (digitVal d)) =
      fs.map (fun d => jsEntry digitNamesE (digitVal d)) ++ [("zero").data] := by
    rw [List.map_append]
    rfl
  rw [hmap]
  have hmne : fs.map (fun d => jsEntry digitNamesE (digitVal d)) ≠ [] := by
    simpa using hfs
  rw [intercalate_append_singleton _ _ hmne]
  have hsep : jsOrStr noOptions.customSeparator DEFAULT_SEPARATOR = [' '] := rfl
  rw [hsep]
  simp [List.append_assoc, List.cons_append]

end EnglishLanguagePlugin

/-- C5: fractional handling is locale-specific, not uniform.  The Persian
plugin strips trailing zeros (appending '0' never changes its output, and an
all-zero fraction behaves like no fraction) and renders at most the first
eleven stripped digits; the English plugin renders the fraction digit by
digit, so a trailing zero extends the output with the word "zero". -/
theorem c5_fraction_handling :
    (∀ (neg : Bool) (ds fs : Harfizer.Str), ds ≠ [] →
      Harfizer.allDigits ds = true → Harfizer.allDigits fs = true →
      fs ≠ [] → Harfizer.natOfDigits ds ≠ 0 → ds.length ≤ 66 →
      ∃ w, EnglishLanguagePlugin.convertNumber
          ((if neg then ['-'] else []) ++ ds ++ ('.' :: fs))
          Harfizer.noOptions = Except.ok w ∧
        EnglishLanguagePlugin.convertNumber
          ((if neg then ['-'] else []) ++ ds ++ ('.' :: (fs ++ ['0'])))
          Harfizer.noOptions = Except.ok (w ++ (" zero").data)) ∧
    (∀ (neg : Bool) (ds fs : Harfizer.Str), ds ≠ [] →
      Harfizer.allDigits ds = true → Harfizer.allDigits fs = true →
      PersianLanguagePlugin.convertNumber
          ((if neg then ['-'] else []) ++ ds ++ ('.' :: (fs ++ ['0'])))
          Harfizer.noOptions =
        PersianLanguagePlugin.convertNumber
          ((if neg then ['-'] else []) ++ ds ++
            (if fs.isEmpty then [] else '.' :: fs)) Harfizer.noOptions) ∧
    (∀ (k : Nat) (neg : Bool) (ds : Harfizer.Str), ds ≠ [] →
      Harfizer.allDigits ds = true →
      PersianLanguagePlugin.convertNumber
          ((if neg then ['-'] else []) ++ ds ++
            (if (List.replicate k '0').isEmpty then []
              else '.' :: List.replicate k '0')) Harfizer.noOptions =
        PersianLanguagePlugin.convertNumber
          ((if neg then ['-'] else []) ++ ds ++ ([] : Harfizer.Str))
          Harfizer.noOptions) ∧
    (∀ (conv : Harfizer.Str → Harfizer.ConversionOptions →
        Except Harfizer.Str Harfizer.Str)
      (sufs : List Harfizer.Str) (fs gs : Harfizer.Str),
      ((fs.reverse.dropWhile (fun c => c = '0')).reverse).take 11 =
        ((gs.reverse.dropWhile (fun c => c = '0')).reverse).take 11 →
      PersianLanguagePlugin.convertFractionalPartF conv fs sufs =
        PersianLanguagePlugin.convertFractionalPartF conv gs sufs) :=
  ⟨EnglishLanguagePlugin.convertNumber_frac_append_zeroE,
    PersianLanguagePlugin.convertNumber_frac_append_zeroP,
    PersianLanguagePlugin.convertNumber_frac_all_zeros,
    PersianLanguagePlugin.convertFractionalPartF_take11⟩

/-- C5 witness: the English half applied to 1.5, extended to 1.50. -/
theorem c5_fraction_handling_witness :
    ∃ w, EnglishLanguagePlugin.convertNumber
        ((if false then ['-'] else []) ++ ("1").data ++ ('.' :: ("5").data))
        Harfizer.noOptions = Except.ok w ∧
      EnglishLanguagePlugin.convertNumber
        ((if false then ['-'] else []) ++ ("1").data ++
          ('.' :: (("5").data ++ ['0']))) Harfizer.noOptions =
        Except.ok (w ++ (" zero").data) :=
  c5_fraction_handling.1 false (("1").data) (("5").data) (by decide)
    (by decide) (by decide) (by decide) (by decide) (by decide)

/-- C5 counterexample: the English conversion of "1.50" keeps the trailing
zero; nothing is stripped or omitted. -/
theorem c5_counterexample :
    EnglishLanguagePlugin.convertNumber (("1.50").data) Harfizer.noOptions =
      Except.ok (("one point five zero").data) ∧
    (("one point five zero").data : Harfizer.Str) ≠
      ("one point five").data := ⟨rfl, by decide⟩

namespace EnglishLanguagePlugin

open Harfizer

set_option maxRecDepth 10000 in
/-- Conversion of the decimal rendering of any value below 60 succeeds. -/
theorem convertNumber_small_okE :
    ∀ n : Nat, n < 60 →
      (convertNumber (intToStr (Int.ofNat n)) noOptions).toOption.isSome =
        true := by decide

/-- Full case analysis of the English `convertTimeToWords`: wrong component
count and unparseable components fail with the format errors, out-of-range
hours and minutes fail with the range errors, and in-range values succeed.
Parsing uses `parseInt`, which accepts any string with a digit prefix. -/
theorem convertTime_characterizationE :
    (∀ s : Str, (splitOnChar ':' s).length ≠ 2 →
      convertTimeToWords s =
        Except.error (("Invalid time format. Expected format 'HH:mm'.").data)) ∧
    (∀ (s hs ms : Str), splitOnChar ':' s = [hs, ms] →
      jsParseInt hs = none →
      convertTimeToWords s = Except.error
        (("Invalid time format. Hours and minutes should be numbers.").data)) ∧
    (∀ (s hs ms : Str) (h : Int), splitOnChar ':' s = [hs, ms] →
      jsParseInt hs = some h → jsParseInt ms = none →
      convertTimeToWords s = Except.error
        (("Invalid time format. Hours and minutes should be numbers.").data)) ∧
    (∀ (s hs ms : Str) (h m : Int), splitOnChar ':' s = [hs, ms] →
      jsParseInt hs = some h → jsParseInt ms = some m → (h < 0 ∨ h > 23) →
      convertTimeToWords s = Except.error
        (("Invalid hour value. Hour should be between 0 and 23.").data)) ∧
    (∀ (s hs ms : Str) (h m : Int), splitOnChar ':' s = [hs, ms] →
      jsParseInt hs = some h → jsParseInt ms = some m → 0 ≤ h → h ≤ 23 →
      (m < 0 ∨ m > 59) →
      convertTimeToWords s = Except.error
        (("Invalid minute value. Minute should be between 0 and 59.").data)) ∧
    (∀ (s hs ms : Str) (h m : Int), splitOnChar ':' s = [hs, ms] →
      jsParseInt hs = some h → jsParseInt ms = some m → 0 ≤ h → h ≤ 23 →
      0 ≤ m → m ≤ 59 → ∃ w, convertTimeToWords s = Except.ok w) := by
  refine ⟨?_, ?_, ?_, ?_, ?_, ?_⟩
  · intro s hcond
    simp only [convertTimeToWords]
    rw [if_pos hcond]
  · intro s hs ms hsplit hh
    simp only [convertTimeToWords]
    rw [hsplit]
    rw [if_neg (by simp)]
    simp only [List.headD_cons, List.get?_cons_succ, List.get?_cons_zero,
      Option.getD_some]
    simp only [hh]
  · intro s hs ms h hsplit hh hm
    simp only [convertTimeToWords]
    rw [hsplit]
    rw [if_neg (by simp)]
    simp only [List.headD_cons, List.get?_cons_succ, List.get?_cons_zero,
      Option.getD_some]
    simp only [hh, hm]
  · intro s hs ms h m hsplit hh hm hrange
    simp only [convertTimeToWords]
    rw [hsplit]
    rw [if_neg (by simp)]
    simp only [List.headD_cons, List.get?_cons_succ, List.get?_cons_zero,
      Option.getD_some]
    simp only [hh, hm]
    have hcond : (decide (h < 0) || decide (h > 23)) = true := by
      simp only [Bool.or_eq_true, decide_eq_true_eq]
      exact hrange
    rw [if_pos hcond]
  · intro s hs ms h m hsplit hh hm h0 h23 hrange
    simp only [convertTimeToWords]
    rw [hsplit]
    rw [if_neg (by simp)]
    simp only [List.headD_cons, List.get?_cons_succ, List.get?_cons_zero,
      Option.getD_some]
    simp only [hh, hm]
    have hcond1 : ¬((decide (h < 0) || decide (h > 23)) = true) := by
      simp only [Bool.or_eq_true, decide_eq_true_eq]
      push_neg
      constructor <;> omega
    rw [if_neg hcond1]
    have hcond2 : (decide (m < 0) || decide (m > 59)) = true := by
      simp only [Bool.or_eq_true, decide_eq_true_eq]
      exact hrange
    rw [if_pos hcond2]
  · intro s hs ms h m hsplit hh hm h0 h23 m0 m59
    simp only [convertTimeToWords]
    rw [hsplit]
    rw [if_neg (by simp)]
    simp only [List.headD_cons, List.get?_cons_succ, List.get?_cons_zero,
      Option.getD_some]
    simp only [hh, hm]
    have hcond1 : ¬((decide (h < 0) || decide (h > 23)) = true) := by
      simp only [Bool.or_eq_true, decide_eq_true_eq]
      push_neg
      constructor <;> omega
    rw [if_neg hcond1]
    have hcond2 : ¬((decide (m < 0) || decide (m > 59)) = true) := by
      simp only [Bool.or_eq_true, decide_eq_true_eq]
      push_neg
      constructor <;> omega
    rw [if_neg hcond2]
    have hhn : h = Int.ofNat h.toNat := (Int.toNat_of_nonneg h0).symm
    have hmn : m = Int.ofNat m.toNat := (Int.toNat_of_nonneg m0).symm
    rw [hhn, hmn]
    have hhok := convertNumber_small_okE h.toNat (by omega)
    have hmok := convertNumber_small_okE m.toNat (by omega)
    obtain ⟨hw, hweq⟩ : ∃ w, convertNumber (intToStr (Int.ofNat h.toNat))
        noOptions = Except.ok w := by
      cases hcv : convertNumber (intToStr (Int.ofNat h.toNat)) noOptions with
      | ok a => exact ⟨a, rfl⟩
      | error e =>
        rw [hcv] at hhok
        simp [Except.toOption] at hhok
    obtain ⟨mw, hmeq⟩ : ∃ w, convertNumber (intToStr (Int.ofNat m.toNat))
        noOptions = Except.ok w := by
      cases hcv : convertNumber (intToStr (Int.ofNat m.toNat)) noOptions with
      | ok a => exact ⟨a, rfl⟩
      | error e =>
        rw [hcv] at hmok
        simp [Except.toOption] at hmok
    rw [exceptBindEq, hweq, exceptBindOk, exceptBindEq, hmeq, exceptBindOk]
    by_cases hm0 : Int.ofNat m.toNat = 0
    · rw [if_pos hm0]
      exact ⟨_, rfl⟩
    · rw [if_neg hm0]
      exact ⟨_, rfl⟩

end EnglishLanguagePlugin

namespace PersianLanguagePlugin

open Harfizer

set_option maxRecDepth 10000 in
/-- Conversion of the decimal rendering of any value below 60 succeeds. -/
theorem convertNumber_small_okP :
    ∀ n : Nat, n < 60 →
      (convertNumber (intToStr (Int.ofNat n)) noOptions).toOption.isSome =
        true := by decide

/-- Full case analysis of the Persian `convertTimeToWords`, exactly parallel
to the English one. -/
theorem convertTime_characterizationP :
    (∀ s : Str, (splitOnChar ':' s).length ≠ 2 →
      convertTimeToWords s =
        Except.error (("Invalid time format. Expected format 'HH:mm'.").data)) ∧
    (∀ (s hs ms : Str), splitOnChar ':' s = [hs, ms] →
      jsParseInt hs = none →
      convertTimeToWords s = Except.error
        (("Invalid time format. Hours and minutes should be numbers.").data)) ∧
    (∀ (s hs ms : Str) (h : Int), splitOnChar ':' s = [hs, ms] →
      jsParseInt hs = some h → jsParseInt ms = none →
      convertTimeToWords s = Except.error
        (("Invalid time format. Hours and minutes should be numbers.").data)) ∧
    (∀ (s hs ms : Str) (h m : Int), splitOnChar ':' s = [hs, ms] →
      jsParseInt hs = some h → jsParseInt ms = some m → (h < 0 ∨ h > 23) →
      convertTimeToWords s = Except.error
        (("Invalid hour value. Hour should be between 0 and 23.").data)) ∧
    (∀ (s hs ms : Str) (h m : Int), splitOnChar ':' s = [hs, ms] →
      jsParseInt hs = some h → jsParseInt ms = some m → 0 ≤ h → h ≤ 23 →
      (m < 0 ∨ m > 59) →
      convertTimeToWords s = Except.error
        (("Invalid minute value. Minute should be between 0 and 59.").data)) ∧
    (∀ (s hs ms : Str) (h m : Int), splitOnChar ':' s = [hs, ms] →
      jsParseInt hs = some h → jsParseInt ms = some m → 0 ≤ h → h ≤ 23 →
      0 ≤ m → m ≤ 59 → ∃ w, convertTimeToWords s = Except.ok w) := by
  refine ⟨?_, ?_, ?_, ?_, ?_, ?_⟩
  · intro s hcond
    simp only [convertTimeToWords]
    rw [if_pos hcond]
  · intro s hs ms hsplit hh
    simp only [convertTimeToWords]
    rw [hsplit]
    rw [if_neg (by simp)]
    simp only [List.headD_cons, List.get?_cons_succ, List.get?_cons_zero,
      Option.getD_some]
    simp only [hh]
  · intro s hs ms h hsplit hh hm
    simp only [convertTimeToWords]
    rw [hsplit]
    rw [if_neg (by simp)]
    simp only [List.headD_cons, List.get?_cons_succ, List.get?_cons_zero,
      Option.getD_some]
    simp only [hh, hm]
  · intro s hs ms h m hsplit hh hm hrange
    simp only [convertTimeToWords]
    rw [hsplit]
    rw [if_neg (by simp)]
    simp only [List.headD_cons, List.get?_cons_succ, List.get?_cons_zero,
      Option.getD_some]
    simp only [hh, hm]
    have hcond : (decide (h < 0) || decide (h > 23)) = true := by
      simp only [Bool.or_eq_true, decide_eq_true_eq]
      exact hrange
    rw [if_pos hcond]
  · intro s hs ms h m hsplit hh hm h0 h23 hrange
    simp only [convertTimeToWords]
    rw [hsplit]
    rw [if_neg (by simp)]
    simp only [List.headD_cons, List.get?_cons_succ, List.get?_cons_zero,
      Option.getD_some]
    simp only [hh, hm]
    have hcond1 : ¬((decide (h < 0) || decide (h > 23)) = true) := by
      simp only [Bool.or_eq_true, decide_eq_true_eq]
      push_neg
      constructor <;> omega
    rw [if_neg hcond1]
    have hcond2 : (decide (m < 0) || decide (m > 59)) = true := by
      simp only [Bool.or_eq_true, decide_eq_true_eq]
      exact hrange
    rw [if_pos hcond2]
  · intro s hs ms h m hsplit hh hm h0 h23 m0 m59
    simp only [convertTimeToWords]
    rw [hsplit]
    rw [if_neg (by simp)]
    simp only [List.headD_cons, List.get?_cons_succ, List.get?_cons_zero,
      Option.getD_some]
    simp only [hh, hm]
    have hcond1 : ¬((decide (h < 0) || decide (h > 23)) = true) := by
      simp only [Bool.or_eq_true, decide_eq_true_eq]
      push_neg
      constructor <;> omega
    rw [if_neg hcond1]
    have hcond2 : ¬((decide (m < 0) || decide (m > 59)) = true) := by
      simp only [Bool.or_eq_true, decide_eq_true_eq]
      push_neg
      constructor <;> omega
    rw [if_neg hcond2]
    have hhn : h = Int.ofNat h.toNat := (Int.toNat_of_nonneg h0).symm
    have hmn : m = Int.ofNat m.toNat := (Int.toNat_of_nonneg m0).symm
    rw [hhn, hmn]
    have hhok := convertNumber_small_okP h.toNat (by omega)
    have hmok := convertNumber_small_okP m.toNat (by omega)
    obtain ⟨hw, hweq⟩ : ∃ w, convertNumber (intToStr (Int.ofNat h.toNat))
        noOptions = Except.ok w := by
      cases hcv : convertNumber (intToStr (Int.ofNat h.toNat)) noOptions with
      | ok a => exact ⟨a, rfl⟩
      | error e =>
        rw [hcv] at hhok
        simp [Except.toOption] at hhok
    obtain ⟨mw, hmeq⟩ : ∃ w, convertNumber (intToStr (Int.ofNat m.toNat))
        noOptions = Except.ok w := by
      cases hcv : convertNumber (intToStr (Int.ofNat m.toNat)) noOptions with
      | ok a => exact ⟨a, rfl⟩
      | error e =>
        rw [hcv] at hmok
        simp [Except.toOption] at hmok
    rw [exceptBindEq, hweq, exceptBindOk, exceptBindEq, hmeq, exceptBindOk]
    by_cases hm0 : Int.ofNat m.toNat = 0
    · rw [if_pos hm0]
      exact ⟨_, rfl⟩
    · rw [if_neg hm0]
      exact ⟨_, rfl⟩

end PersianLanguagePlugin

/-- C7: time validation proceeds as specified except for what "non-numeric"
means: components are parsed with `parseInt`, which accepts any component
with a digit prefix, so only components with no leading digits fail with the
format error; component count, hour range and minute range behave as
specified, and in-range values always succeed. -/
theorem c7_time_validation :
    ((∀ s : Harfizer.Str, (Harfizer.splitOnChar ':' s).length ≠ 2 →
      EnglishLanguagePlugin.convertTimeToWords s =
        Except.error (("Invalid time format. Expected format 'HH:mm'.").data)) ∧
    (∀ (s hs ms : Harfizer.Str), Harfizer.splitOnChar ':' s = [hs, ms] →
      Harfizer.jsParseInt hs = none →
      EnglishLanguagePlugin.convertTimeToWords s = Except.error
        (("Invalid time format. Hours and minutes should be numbers.").data)) ∧
    (∀ (s hs ms : Harfizer.Str) (h : Int),
      Harfizer.splitOnChar ':' s = [hs, ms] →
      Harfizer.jsParseInt hs = some h → Harfizer.jsParseInt ms = none →
      EnglishLanguagePlugin.convertTimeToWords s = Except.error
        (("Invalid time format. Hours and minutes should be numbers.").data)) ∧
    (∀ (s hs ms : Harfizer.Str) (h m : Int),
      Harfizer.splitOnChar ':' s = [hs, ms] →
      Harfizer.jsParseInt hs = some h → Harfizer.jsParseInt ms = some m →
      (h < 0 ∨ h > 23) →
      EnglishLanguagePlugin.convertTimeToWords s = Except.error
        (("Invalid hour value. Hour should be between 0 and 23.").data)) ∧
    (∀ (s hs ms : Harfizer.Str) (h m : Int),
      Harfizer.splitOnChar ':' s = [hs, ms] →
      Harfizer.jsParseInt hs = some h → Harfizer.jsParseInt ms = some m →
      0 ≤ h → h ≤ 23 → (m < 0 ∨ m > 59) →
      EnglishLanguagePlugin.convertTimeToWords s = Except.error
        (("Invalid minute value. Minute should be between 0 and 59.").data)) ∧
    (∀ (s hs ms : Harfizer.Str) (h m : Int),
      Harfizer.splitOnChar ':' s = [hs, ms] →
      Harfizer.jsParseInt hs = some h → Harfizer.jsParseInt ms = some m →
      0 ≤ h → h ≤ 23 → 0 ≤ m → m ≤ 59 →
      ∃ w, EnglishLanguagePlugin.convertTimeToWords s = Except.ok w)) ∧
    ((∀ s : Harfizer.Str, (Harfizer.splitOnChar ':' s).length ≠ 2 →
      PersianLanguagePlugin.convertTimeToWords s =
        Except.error (("Invalid time format. Expected format 'HH:mm'.").data)) ∧
    (∀ (s hs ms : Harfizer.Str), Harfizer.splitOnChar ':' s = [hs, ms] →
      Harfizer.jsParseInt hs = none →
      PersianLanguagePlugin.convertTimeToWords s = Except.error
        (("Invalid time format. Hours and minutes should be numbers.").data)) ∧
    (∀ (s hs ms : Harfizer.Str) (h : Int),
      Harfizer.splitOnChar ':' s = [hs, ms] →
      Harfizer.jsParseInt hs = some h → Harfizer.jsParseInt ms = none →
      PersianLanguagePlugin.convertTimeToWords s = Except.error
        (("Invalid time format. Hours and minutes should be numbers.").data)) ∧
    (∀ (s hs ms : Harfizer.Str) (h m : Int),
      Harfizer.splitOnChar ':' s = [hs, ms] →
      Harfizer.jsParseInt hs = some h → Harfizer.jsParseInt ms = some m →
      (h < 0 ∨ h > 23) →
      PersianLanguagePlugin.convertTimeToWords s = Except.error
        (("Invalid hour value. Hour should be between 0 and 23.").data)) ∧
    (∀ (s hs ms : Harfizer.Str) (h m : Int),
      Harfizer.splitOnChar ':' s = [hs, ms] →
      Harfizer.jsParseInt hs = some h → Harfizer.jsParseInt ms = some m →
      0 ≤ h → h ≤ 23 → (m < 0 ∨ m > 59) →
      PersianLanguagePlugin.convertTimeToWords s = Except.error
        (("Invalid minute value. Minute should be between 0 and 59.").data)) ∧
    (∀ (s hs ms : Harfizer.Str) (h m : Int),
      Harfizer.splitOnChar ':' s = [hs, ms] →
      Harfizer.jsParseInt hs = some h → Harfizer.jsParseInt ms = some m →
      0 ≤ h → h ≤ 23 → 0 ≤ m → m ≤ 59 →
      ∃ w, PersianLanguagePlugin.convertTimeToWords s = Except.ok w)) :=
  ⟨EnglishLanguagePlugin.convertTime_characterizationE,
    PersianLanguagePlugin.convertTime_characterizationP⟩

/-- C7 witness: the in-range time 07:05 converts successfully. -/
theorem c7_time_validation_witness :
    ∃ w, EnglishLanguagePlugin.convertTimeToWords (("07:05").data) =
      Except.ok w :=
  c7_time_validation.1.2.2.2.2.2 (("07:05").data) (("07").data)
    (("05").data) 7 5 (by decide) (by decide) (by decide) (by decide)
    (by decide) (by decide) (by decide)

/-- C7 counterexample: the hour component "1x" is not a number, yet the call
succeeds, because `parseInt` parses the digit prefix "1". -/
theorem c7_counterexample :
    EnglishLanguagePlugin.convertTimeToWords (("1x:05").data) =
      Except.ok (("It is one o'clock and five minutes").data) ∧
    Harfizer.allDigits (("1x").data) = false := ⟨rfl, rfl⟩
